import Mathlib

/-!
Shallow embedding of the suitor agent in src/suitors/g4.py (class Suitor),
together with theorems settling the specification claims about it.

Conventions of the embedding:
* Python dicts are association lists in insertion order with unique keys;
  `lookupD`, `dictSet`, `dictIncr` mirror `d[k]`, `d[k] = v` and `d[k] += 1`.
* The numpy count table `flower_info` (shape 6 x 4 x 3, integer entries) is a
  function `Fin 6 → Fin 4 → Fin 3 → ℤ`.
* Randomness is an oracle stream `Rand := List Nat`; a uniform draw from
  `range(n+1)` consumes the head of the stream reduced mod (n+1), so every
  value the Python generator can produce is representable.
* Python `float` arithmetic on round fractions and scores is modelled by exact
  rational arithmetic (`ℚ`).
* Operations that can raise in Python (`ZeroDivisionError`, `IndexError`,
  out-of-range `list[i]`) return `Option`, with `none` standing for the raise.
-/

namespace G4

/-- Modelled from the spec: the item value type `Flower` of the external
`flowers` module (not under src/). A category is a (color, type, size) triple;
the spec fixes 6 colors, 4 types and 3 sizes, each enumeration value carrying
its index as `.value`. -/
structure Flower where
  color : Fin 6
  type : Fin 4
  size : Fin 3
deriving DecidableEq

instance : Inhabited Flower := ⟨⟨0, 0, 0⟩⟩

/-- Modelled from the spec: a `Bouquet` of the external `flowers` module
(not under src/) wraps an arrangement, a mapping from item category to count;
here an association list in insertion order. -/
abbrev Bouquet := List (Flower × Nat)

/-- Modelled from the spec: `MAX_BOUQUET_SIZE` is imported from the external
`constants` module (not under src/); the spec calls it "the configured maximum
bundle size", a fixed constant; the game configures 12. -/
def MAX_BOUQUET_SIZE : Nat := 12

/-- Multiplicity of an element in a list (used to state allocation counts). -/
def mcount {α : Type} [DecidableEq α] : List α → α → Nat
  | [], _ => 0
  | a :: l, x => (if a = x then 1 else 0) + mcount l x

/-- Python `d[k]` as a partial lookup: first entry with the given key. -/
def lookupD {α β : Type} [DecidableEq α] : List (α × β) → α → Option β
  | [], _ => none
  | p :: l, x => if p.1 = x then some p.2 else lookupD l x

/-- The integer value a dict holds at a key, defaulting to 0 when absent. -/
def dval {α : Type} [DecidableEq α] (d : List (α × ℤ)) (x : α) : ℤ :=
  (lookupD d x).getD 0

/-- Python `d[k] = v`: update the entry in place, or append a new one. -/
def dictSet {α β : Type} [DecidableEq α] : List (α × β) → α → β → List (α × β)
  | [], x, v => [(x, v)]
  | p :: l, x, v => if p.1 = x then (x, v) :: l else p :: dictSet l x v

/-- One increment step of `collections.Counter`. -/
def dictIncr {α : Type} [DecidableEq α] : List (α × Nat) → α → List (α × Nat)
  | [], x => [(x, 1)]
  | p :: l, x => if p.1 = x then (p.1, p.2 + 1) :: l else p :: dictIncr l x

/-- Models `dict(Counter(l))`: counts in first-occurrence order. -/
def counter {α : Type} [DecidableEq α] (l : List α) : List (α × Nat) :=
  l.foldl dictIncr []

/-- Modelled from the spec: `utils.flatten_counter` (not under src/) lists each
key of a counts dict repeated its count times, in dict order. -/
def flatten_counter {α : Type} (d : List (α × Nat)) : List α :=
  d.flatMap (fun p => List.replicate p.2 p.1)

/-- Variant of `flatten_counter` on a dict with integer counts (non-positive counts
contribute nothing, matching `[k] * v` in Python). -/
def flatten_counterZ {α : Type} (d : List (α × ℤ)) : List α :=
  d.flatMap (fun p => List.replicate p.2.toNat p.1)

/-- Total number of items in a bouquet across all categories. -/
def bouquetTotal (b : Bouquet) : Nat := (b.map Prod.snd).sum

/-- Oracle stream driving the agent's random draws. -/
abbrev Rand := List Nat

/-- Models `rand.choice(list(range(n+1)))` and `np.random.randint(0, n+1)`:
a uniform draw from {0, …, n}, read off the oracle stream. -/
def choice0 (r : Rand) (n : Nat) : Nat × Rand := (r.headI % (n + 1), r.tail)

/-- The dense 3-axis count table built by `_tabularize_flowers`
(numpy array of shape (6, 4, 3), indexed color, type, size). -/
abbrev FlowerInfo := Fin 6 → Fin 4 → Fin 3 → ℤ

/-- Models the assignment `flower_info[c][t][s] = v`. -/
def setCell (info : FlowerInfo) (c : Fin 6) (t : Fin 4) (s : Fin 3) (v : ℤ) : FlowerInfo :=
  fun c' t' s' => if c' = c ∧ t' = t ∧ s' = s then v else info c' t' s'

/-- Models the update `flower_info[c][t][s] += d`. -/
def addCell (info : FlowerInfo) (c : Fin 6) (t : Fin 4) (s : Fin 3) (d : ℤ) : FlowerInfo :=
  setCell info c t s (info c t s + d)

/-- Embeds `Suitor._tabularize_flowers`: write each dict entry's count into
its (color, type, size) cell of a zero-initialised table. -/
def _tabularize_flowers (flower_counts : List (Flower × ℤ)) : FlowerInfo :=
  flower_counts.foldl (fun info p => setCell info p.1.color p.1.type p.1.size p.2)
    (fun _ _ _ => 0)

/-- All 72 categories in the (color-major, then type, then size) order of the
triple loop in `_list_flowers`. -/
def allFlowers : List Flower :=
  (List.finRange 6).flatMap fun c =>
    (List.finRange 4).flatMap fun t =>
      (List.finRange 3).map fun s => ⟨c, t, s⟩

/-- Embeds `Suitor._list_flowers`: rebuild the sparse counts dict from the
table, keeping exactly the cells with positive count, in loop order. -/
def _list_flowers (info : FlowerInfo) : List (Flower × ℤ) :=
  (allFlowers.filter (fun f => decide (0 < info f.color f.type f.size))).map
    (fun f => (f, info f.color f.type f.size))

/-- Embeds the sampling in `np.random.choice(pool, size=(k,), replace=False)`:
repeatedly pick a remaining index from the oracle and remove that element.
Any without-replacement sample is representable; `k` never exceeds the pool
size at the call sites. -/
def sampleWoR : Nat → List Flower → Rand → List Flower × Rand
  | 0, _, r => ([], r)
  | _ + 1, [], r => ([], r)
  | k + 1, pool@(_ :: _), r =>
      let i := r.headI % pool.length
      let f := pool.getD i default
      let (rest, r') := sampleWoR k (pool.eraseIdx i) r.tail
      (f :: rest, r')

/-- Embeds `Suitor.generate_map`: `vals` is the list of enum values after
`random.shuffle` (an arbitrary permutation of `[0, …, n-1]`), and the mapping
sends the idx-th enum member to `vals[idx]`. -/
def generate_map (n : Nat) (vals : List Nat) : Fin n → Nat :=
  fun i => vals.getD i.val 0

/-- The key/value item list of a mapping, in enum (insertion) order, as built
by the comprehension in `best_bouquet`. -/
def mapItems {n : Nat} (m : Fin n → Nat) : List (Fin n × Nat) :=
  (List.finRange n).map (fun i => (i, m i))

/-- Embeds Python `sorted(items, key=lambda x: x[1])`: a stable sort ascending
on the value component (any stable sort computes the same list, so the
structural `insertionSort` is used). -/
def sortByVal {n : Nat} (l : List (Fin n × Nat)) : List (Fin n × Nat) :=
  l.insertionSort (fun a b => a.2 ≤ b.2)

/-- Models `sorted(mapping.items(), key=value)[-1]`: the last item of the stably
sorted item list (an item of maximal value). -/
def bestItem {n : Nat} [NeZero n] (m : Fin n → Nat) : Fin n × Nat :=
  (sortByVal (mapItems m)).getLastD (0, 0)

/-- Embeds `Suitor.best_bouquet`: one flower carrying the maximal-value color,
type and size of the agent's private mappings, with count 1. -/
def best_bouquet (mc : Fin 6 → Nat) (mt : Fin 4 → Nat) (ms : Fin 3 → Nat) : Bouquet :=
  [(⟨(bestItem mc).1, (bestItem mt).1, (bestItem ms).1⟩, 1)]

/-- Embeds `Suitor.zero_score_bouquet`: the empty bouquet. -/
def zero_score_bouquet : Bouquet := []

/-- Embeds `Suitor.one_score_bouquet`: `self.best_arrangement`, the bouquet
built once by `best_bouquet`. -/
def one_score_bouquet (mc : Fin 6 → Nat) (mt : Fin 4 → Nat) (ms : Fin 3 → Nat) : Bouquet :=
  best_bouquet mc mt ms

/-- Python `d[k] += v` on a counts dict, inserting the key if absent; one step
of the per-attribute aggregation of a bouquet. -/
def dictAdd {α : Type} [DecidableEq α] : List (α × Nat) → α → Nat → List (α × Nat)
  | [], x, v => [(x, v)]
  | p :: l, x, v => if p.1 = x then (p.1, p.2 + v) :: l else p :: dictAdd l x v

/-- Modelled from the spec: the `Bouquet` per-attribute count breakdown (the
colors dict handed to `score_colors`): total count per color. -/
def bouquetColors (b : Bouquet) : List (Fin 6 × Nat) :=
  b.foldl (fun d p => dictAdd d p.1.color p.2) []

/-- Modelled from the spec: the types breakdown handed to `score_types`. -/
def bouquetTypes (b : Bouquet) : List (Fin 4 × Nat) :=
  b.foldl (fun d p => dictAdd d p.1.type p.2) []

/-- Modelled from the spec: the sizes breakdown handed to `score_sizes`. -/
def bouquetSizes (b : Bouquet) : List (Fin 3 × Nat) :=
  b.foldl (fun d p => dictAdd d p.1.size p.2) []

/-- Models `np.mean` of the mapping values over the flattened counts dict, as an
exact rational. -/
def meanVals {n : Nat} (m : Fin n → Nat) (d : List (Fin n × Nat)) : ℚ :=
  (((flatten_counter d).map (fun x => (m x : ℚ))).sum) / (flatten_counter d).length

/-- Embeds `Suitor.score_types`: 0 on an empty dict, otherwise the mean of the
type-mapping values divided by `3 * (len(FlowerTypes) - 1)`. -/
def score_types (mt : Fin 4 → Nat) (types : List (Fin 4 × Nat)) : ℚ :=
  if types.length = 0 then 0
  else meanVals mt types / (3 * (4 - 1))

/-- Embeds `Suitor.score_colors`: denominator `3 * (len(FlowerColors) - 1)`. -/
def score_colors (mc : Fin 6 → Nat) (colors : List (Fin 6 × Nat)) : ℚ :=
  if colors.length = 0 then 0
  else meanVals mc colors / (3 * (6 - 1))

/-- Embeds `Suitor.score_sizes`: denominator `3 * (len(FlowerSizes) - 1)`. -/
def score_sizes (ms : Fin 3 → Nat) (sizes : List (Fin 3 × Nat)) : ℚ :=
  if sizes.length = 0 then 0
  else meanVals ms sizes / (3 * (3 - 1))

/-- The tag `exp_type` attached to a dispatched bouquet. -/
inductive ExpType
  | color
  | type
  | size
deriving DecidableEq

/-- The per-recipient fixed control pairs assigned at initialisation:
`fc_control = [type, size]`, `ft_control = [color, size]`,
`fs_control = [color, type]`. -/
structure Controls where
  fc_control : Fin 4 × Fin 3
  ft_control : Fin 6 × Fin 3
  fs_control : Fin 6 × Fin 4
deriving DecidableEq

/-- Embeds `Suitor._get_combinations`: all pairs, first list outermost. -/
def _get_combinations {α β : Type} (l1 : List α) (l2 : List β) : List (α × β) :=
  l1.flatMap (fun a => l2.map (fun b => (a, b)))

/-- The list `recipient_ids`: all suitor ids except one's own, ascending. -/
def recipientIds (num_suitors suitor_id : Nat) : List Nat :=
  (List.range num_suitors).filter (fun i => decide (i ≠ suitor_id))

/-- The color-experiment control options `_get_combinations(types, sizes)`
before shuffling (12 pairs). -/
def fc_control_options : List (Fin 4 × Fin 3) :=
  _get_combinations (List.finRange 4) (List.finRange 3)

/-- The type-experiment control options (18 pairs). -/
def ft_control_options : List (Fin 6 × Fin 3) :=
  _get_combinations (List.finRange 6) (List.finRange 3)

/-- The size-experiment control options (24 pairs). -/
def fs_control_options : List (Fin 6 × Fin 4) :=
  _get_combinations (List.finRange 6) (List.finRange 4)

/-- The recipient loop of `_assign_control_groups`: index each option list at
`recipient % len(recipient_ids)`; `none` models the Python `IndexError` when
the index is out of range. -/
def assignGo (len : Nat) (fcOpts : List (Fin 4 × Fin 3)) (ftOpts : List (Fin 6 × Fin 3))
    (fsOpts : List (Fin 6 × Fin 4)) : List Nat → Option (List (Nat × Controls))
  | [] => some []
  | rid :: rest =>
      match fcOpts.get? (rid % len), ftOpts.get? (rid % len), fsOpts.get? (rid % len),
          assignGo len fcOpts ftOpts fsOpts rest with
      | some fc, some ft, some fs, some tail => some ((rid, ⟨fc, ft, fs⟩) :: tail)
      | _, _, _, _ => none

/-- Embeds `Suitor._assign_control_groups`, parameterised by the three option
lists after `rand.shuffle` (shuffling permutes but keeps the lengths 12, 18
and 24). -/
def _assign_control_groups (rids : List Nat) (fcOpts : List (Fin 4 × Fin 3))
    (ftOpts : List (Fin 6 × Fin 3)) (fsOpts : List (Fin 6 × Fin 4)) :
    Option (List (Nat × Controls)) :=
  assignGo rids.length fcOpts ftOpts fsOpts rids

/-- The constant `C_T_S_SPLIT = 1./3`, the even split between the three experiment
categories. -/
def C_T_S_SPLIT : ℚ := 1 / 3

/-- The branch selector of `_prepare_bouquet` (its if/elif/else on
`remaining_turns / total_turns` against `C_T_S_SPLIT * 2` and `C_T_S_SPLIT`),
well-defined only for `total_turns ≠ 0`. -/
def expPhase (remaining_turns : ℤ) (total_turns : Nat) : ExpType :=
  if (remaining_turns : ℚ) / (total_turns : ℚ) ≥ C_T_S_SPLIT * 2 then ExpType.color
  else if (remaining_turns : ℚ) / (total_turns : ℚ) ≥ C_T_S_SPLIT then ExpType.type
  else ExpType.size

/-- The per-value draws `[rand.choice(list(range(opt + 1))) for opt in opts]`
along the active axis (negative availability never occurs at call sites). -/
def drawExp : List ℤ → Rand → List Nat × Rand
  | [], r => ([], r)
  | o :: rest, r =>
      let (d, r') := choice0 r o.toNat
      let (ds, r'') := drawExp rest r'
      (d :: ds, r'')

/-- The flowers appended by the color-experiment loop: for each color `c`,
`ds[c]` copies of the flower with the fixed control type and size. -/
def colorChosen (ds : List Nat) (ft : Fin 4) (fs : Fin 3) : List Flower :=
  (List.finRange 6).flatMap (fun c => List.replicate (ds.getD c.val 0) ⟨c, ft, fs⟩)

/-- The matching decrements `flower_info[c, ft, fs] -= ds[c]`. -/
def colorDecrement (info : FlowerInfo) (ds : List Nat) (ft : Fin 4) (fs : Fin 3) : FlowerInfo :=
  (List.finRange 6).foldl (fun fi c => addCell fi c ft fs (-(ds.getD c.val 0 : ℤ))) info

/-- The flowers appended by the type-experiment loop. -/
def typeChosen (ds : List Nat) (fc : Fin 6) (fs : Fin 3) : List Flower :=
  (List.finRange 4).flatMap (fun t => List.replicate (ds.getD t.val 0) ⟨fc, t, fs⟩)

/-- The decrements `flower_info[fc, t, fs] -= ds[t]`. -/
def typeDecrement (info : FlowerInfo) (ds : List Nat) (fc : Fin 6) (fs : Fin 3) : FlowerInfo :=
  (List.finRange 4).foldl (fun fi t => addCell fi fc t fs (-(ds.getD t.val 0 : ℤ))) info

/-- The flowers appended by the size-experiment loop. -/
def sizeChosen (ds : List Nat) (fc : Fin 6) (ft : Fin 4) : List Flower :=
  (List.finRange 3).flatMap (fun s => List.replicate (ds.getD s.val 0) ⟨fc, ft, s⟩)

/-- The decrements `flower_info[fc, ft, s] -= ds[s]`. -/
def sizeDecrement (info : FlowerInfo) (ds : List Nat) (fc : Fin 6) (ft : Fin 4) : FlowerInfo :=
  (List.finRange 3).foldl (fun fi s => addCell fi fc ft s (-(ds.getD s.val 0 : ℤ))) info

/-- Embeds `Suitor._generate_rand_bouquet`: list the remaining categories,
draw a size in `[0, min(MAX_BOUQUET_SIZE, num_remaining)]`, sample that many
flowers without replacement and decrement the table per chosen flower. -/
def _generate_rand_bouquet (flower_info : FlowerInfo) (r : Rand) :
    List Flower × FlowerInfo × Rand :=
  let remaining_flowers := _list_flowers flower_info
  let num_remaining : ℤ := (remaining_flowers.map Prod.snd).sum
  let (size, r') := choice0 r (min MAX_BOUQUET_SIZE num_remaining.toNat)
  let (chosen, r'') := sampleWoR size (flatten_counterZ remaining_flowers) r'
  let info' := chosen.foldl (fun fi f => addCell fi f.color f.type f.size (-1)) flower_info
  (chosen, info', r'')

/-- Embeds `Suitor._prepare_bouquet`. `none` models the `ZeroDivisionError`
of the phase test when `total_turns = 0`; otherwise the phase's axis is
probed: if the control slice has stock, draw a per-value count and decrement,
tagging the bouquet with the experiment category; if not, degrade to the
untagged random bouquet. -/
def _prepare_bouquet (remaining_turns : ℤ) (total_turns : Nat) (ctrl : Controls)
    (flower_info : FlowerInfo) (r : Rand) :
    Option (List Flower × Option ExpType × FlowerInfo × Rand) :=
  if total_turns = 0 then none
  else some (
    match expPhase remaining_turns total_turns with
    | ExpType.color =>
        let ft := ctrl.fc_control.1
        let fs := ctrl.fc_control.2
        let opts := (List.finRange 6).map (fun c => flower_info c ft fs)
        if 0 < opts.sum then
          let (ds, r') := drawExp opts r
          (colorChosen ds ft fs, some ExpType.color, colorDecrement flower_info ds ft fs, r')
        else
          let (ch, info', r') := _generate_rand_bouquet flower_info r
          (ch, none, info', r')
    | ExpType.type =>
        let fc := ctrl.ft_control.1
        let fs := ctrl.ft_control.2
        let opts := (List.finRange 4).map (fun t => flower_info fc t fs)
        if 0 < opts.sum then
          let (ds, r') := drawExp opts r
          (typeChosen ds fc fs, some ExpType.type, typeDecrement flower_info ds fc fs, r')
        else
          let (ch, info', r') := _generate_rand_bouquet flower_info r
          (ch, none, info', r')
    | ExpType.size =>
        let fc := ctrl.fs_control.1
        let ft := ctrl.fs_control.2
        let opts := (List.finRange 3).map (fun s => flower_info fc ft s)
        if 0 < opts.sum then
          let (ds, r') := drawExp opts r
          (sizeChosen ds fc ft, some ExpType.size, sizeDecrement flower_info ds fc ft, r')
        else
          let (ch, info', r') := _generate_rand_bouquet flower_info r
          (ch, none, info', r'))

/-- Per-recipient observation log: experiment category (or `none` for a
random fallback) to the ordered list of (bouquet, observed score) pairs, in
key insertion order (a `defaultdict(list)`). -/
abbrev ObsLog := List (Option ExpType × List (Bouquet × ℚ))

/-- The field `self.experiments`: one observation log per recipient id. -/
abbrev Experiments := Nat → ObsLog

/-- The field `self.last_bouquet`: the (suitor, recipient, bouquet, exp_type) tuples of
the previous training round, in recipient order. -/
abbrev LastBouquet := List (Nat × Nat × Bouquet × Option ExpType)

instance instDecEqLastEntry : DecidableEq (Nat × Nat × Bouquet × Option ExpType) :=
  inferInstance

/-- Models the `defaultdict(list)` append `player[experiment].append(o)`. -/
def appendObs : ObsLog → Option ExpType → (Bouquet × ℚ) → ObsLog
  | [], k, o => [(k, [o])]
  | e :: rest, k, o =>
      if e.1 = k then (e.1, e.2 ++ [o]) :: rest else e :: appendObs rest k o

/-- The merge `for j in experiments[i].values(): sortedList.extend(j)`. -/
def mergeObs (log : ObsLog) : List (Bouquet × ℚ) := log.flatMap Prod.snd

/-- Embeds `sortedList.sort(key=lambda x: x[1], reverse=True)`: Python's
stable descending sort; the structural stable `insertionSort` on the reversed
comparison computes the same list. -/
def sortDesc (l : List (Bouquet × ℚ)) : List (Bouquet × ℚ) :=
  l.insertionSort (fun a b => b.2 ≤ a.2)

/-- Embeds `Suitor.able_to_create_bouquet`: every flower of the arrangement
present in the counts dict with at least its count. -/
def able_to_create_bouquet (flowers : Bouquet) (flowercount : List (Flower × ℤ)) : Bool :=
  flowers.all (fun p =>
    match lookupD flowercount p.1 with
    | some v => decide ((p.2 : ℤ) ≤ v)
    | none => false)

/-- The decrements `flower_counts[flower] -= count` over an arrangement
(each key present whenever `able_to_create_bouquet` returned true). -/
def bouquetSub (inv : List (Flower × ℤ)) (b : Bouquet) : List (Flower × ℤ) :=
  b.foldl (fun d p => dictSet d p.1 (dval d p.1 - (p.2 : ℤ))) inv

/-- The final-round scan `for flowers, score in sortedList: if able: commit;
break`: the first constructible bouquet together with the decremented
inventory, or `none` when no recorded bouquet is constructible. -/
def scanCommit : List (Bouquet × ℚ) → List (Flower × ℤ) → Option (Bouquet × List (Flower × ℤ))
  | [], _ => none
  | p :: rest, inv =>
      if able_to_create_bouquet p.1 inv then some (p.1, bouquetSub inv p.1)
      else scanCommit rest inv

/-- The final-round random fallback: copy the counts, draw a size in
`[0, min(MAX_BOUQUET_SIZE, num_remaining)]`, sample without replacement,
aggregate with `Counter` and decrement the copy (the code asserts each
decremented count stays non-negative). -/
def randFinal (inv : List (Flower × ℤ)) (r : Rand) : Bouquet × List (Flower × ℤ) × Rand :=
  let num_remaining : ℤ := (inv.map Prod.snd).sum
  let (size, r') := choice0 r (min MAX_BOUQUET_SIZE num_remaining.toNat)
  let sampled := sampleWoR size (flatten_counterZ inv) r'
  let cnts := counter sampled.1
  let inv' := cnts.foldl (fun d p => dictSet d p.1 (dval d p.1 - (p.2 : ℤ))) inv
  (cnts, inv', sampled.2)

/-- One final-round recipient's body in `prepare_bouquets`: with a non-empty
observation log, the first constructible recorded bouquet in merged
stable-descending score order together with the decremented inventory (no
random draw consumed); otherwise — empty log, or nothing constructible
(`canMake` stays false) — the random fallback. -/
def finalStep (exps : Experiments) (i : Nat) (inv : List (Flower × ℤ))
    (r : Rand) : Bouquet × List (Flower × ℤ) × Rand :=
  if (exps i).length ≠ 0 then
    match scanCommit (sortDesc (mergeObs (exps i))) inv with
    | some (b, inv2) => (b, inv2, r)
    | none => randFinal inv r
  else randFinal inv r

/-- The final-round recipient loop of `prepare_bouquets`: apply `finalStep`
to each recipient in order, threading the remaining inventory and the oracle,
and append `(suitor_id, i, bouquet)` for each recipient. -/
def finalLoop (sid : Nat) (exps : Experiments) :
    List Nat → List (Flower × ℤ) → Rand → List (Nat × Nat × Bouquet) × List (Flower × ℤ) × Rand
  | [], inv, r => ([], inv, r)
  | i :: rest, inv, r =>
      ((sid, i, (finalStep exps i inv r).1) ::
          (finalLoop sid exps rest (finalStep exps i inv r).2.1
            (finalStep exps i inv r).2.2).1,
        (finalLoop sid exps rest (finalStep exps i inv r).2.1
          (finalStep exps i inv r).2.2).2)

/-- The training-round recipient loop of `prepare_bouquets`: thread the count
table and the oracle through `_prepare_bouquet`, building each recipient's
bouquet with `dict(Counter(chosen))` and remembering its experiment tag. -/
def trainLoop (remaining : ℤ) (total : Nat) (ctrls : Nat → Controls) :
    List Nat → FlowerInfo → Rand →
    Option (List (Nat × Bouquet × Option ExpType) × FlowerInfo × Rand)
  | [], info, r => some ([], info, r)
  | rid :: rest, info, r =>
      match _prepare_bouquet remaining total (ctrls rid) info r with
      | none => none
      | some (chosen, et, info2, r2) =>
          match trainLoop remaining total ctrls rest info2 r2 with
          | none => none
          | some (res, info3, r3) => some ((rid, counter chosen, et) :: res, info3, r3)

/-- The body of `update_results` for one feedback row index `i`; `none`
models the raises: `list.index` on a missing recipient, `last_bouquet[...]`
out of range, and `results[i][1]` on a shape-mismatched entry. -/
def update_go (suitor_id : Nat) (recipient_ids : List Nat) (last_bouquet : LastBouquet)
    (results : List (List ℚ)) : List Nat → Experiments → Option Experiments
  | [], exps => some exps
  | i :: rest, exps =>
      if i = suitor_id then update_go suitor_id recipient_ids last_bouquet results rest exps
      else
        match recipient_ids.findIdx? (fun x => decide (x = i)) with
        | none => none
        | some idx =>
            match last_bouquet.get? idx with
            | none => none
            | some e =>
                match (results.get? i).bind (fun row => row.get? 1) with
                | none => none
                | some sc =>
                    update_go suitor_id recipient_ids last_bouquet results rest
                      (fun j => if j = i then appendObs (exps j) e.2.2.2 (e.2.2.1, sc)
                                else exps j)

/-- Embeds `Suitor.update_results`: read `feedback[-1]` and, for every index
`i` in `range(len(results))` other than one's own id, append the previously
given bouquet with its observed score under its experiment tag. -/
def update_results (suitor_id : Nat) (recipient_ids : List Nat) (last_bouquet : LastBouquet)
    (feedback : List (List (List ℚ))) (exps : Experiments) : Option Experiments :=
  match feedback.getLast? with
  | none => none
  | some results =>
      update_go suitor_id recipient_ids last_bouquet results
        (List.range results.length) exps

/-- The per-instance mutable agent state of `Suitor` used by
`prepare_bouquets` (the private score mappings live in separate parameters of
the scoring functions). -/
structure AgentState where
  suitor_id : Nat
  total_turns : Nat
  remaining_turns : ℤ
  recipient_ids : List Nat
  controls : Nat → Controls
  experiments : Experiments
  last_bouquet : LastBouquet
  feedback : List (List (List ℚ))

/-- Embeds `Suitor.prepare_bouquets`: decrement `remaining_turns`, tabularise
the inventory, then either run the final-round exploitation loop
(`remaining_turns == 0`) or the training loop followed by `update_results`
(when feedback has arrived) and the `last_bouquet` update. `none` models an
uncaught exception. -/
def prepare_bouquets (st : AgentState) (flower_counts : List (Flower × ℤ)) (r : Rand) :
    Option (List (Nat × Nat × Bouquet) × AgentState × Rand) :=
  let remaining := st.remaining_turns - 1
  let flower_info := _tabularize_flowers flower_counts
  if remaining = 0 then
    let (out, _, r') := finalLoop st.suitor_id st.experiments st.recipient_ids flower_counts r
    some (out, { st with remaining_turns := remaining }, r')
  else do
    let (res, _, r') ← trainLoop remaining st.total_turns st.controls st.recipient_ids
      flower_info r
    let bouquet_for_all := res.map (fun p => (st.suitor_id, p.1, p.2.1))
    let bouquet_for_all_and_etype := res.map (fun p => (st.suitor_id, p.1, p.2.1, p.2.2))
    let exps' ← if st.feedback.length > 0 then
        update_results st.suitor_id st.recipient_ids st.last_bouquet st.feedback st.experiments
      else some st.experiments
    some (bouquet_for_all,
      { st with remaining_turns := remaining, experiments := exps',
                last_bouquet := bouquet_for_all_and_etype }, r')

/-- The count a counts dict assigns to a key (0 if absent). -/
def bcountN {α : Type} [DecidableEq α] (d : List (α × Nat)) (x : α) : Nat :=
  (lookupD d x).getD 0

/-- The count a bouquet's arrangement assigns to a category (0 if absent). -/
def bcount (b : Bouquet) (f : Flower) : Nat := bcountN b f

/-- Items of a category handed out across a training round's bouquets. -/
def allocatedT (res : List (Nat × Bouquet × Option ExpType)) (f : Flower) : Nat :=
  (res.map (fun p => bcount p.2.1 f)).sum

/-- Items of a category handed out across the final round's bouquets. -/
def allocatedF (res : List (Nat × Nat × Bouquet)) (f : Flower) : Nat :=
  (res.map (fun p => bcount p.2.2 f)).sum

/-- Modelled from the spec: the Exploitation Selector's per-recipient rule —
for a non-empty observation log, the first bundle of the merged,
stable-descending-by-score observation list that is fully constructible from
the remaining inventory; `none` when the log is empty or nothing is
constructible. -/
def specSelect (log : ObsLog) (inv : List (Flower × ℤ)) : Option Bouquet :=
  if log = [] then none
  else ((sortDesc (mergeObs log)).find? (fun p => able_to_create_bouquet p.1 inv)).map
    Prod.fst

/-- Keys of an association list are pairwise distinct (Python dict keys). -/
def NodupKeys {α β : Type} (d : List (α × β)) : Prop :=
  d.Pairwise (fun p q => p.1 ≠ q.1)

/-- Every bouquet in every recipient's observation log has distinct category
keys (true of the agent's logs: each recorded bouquet is a Python dict). -/
def LoggedNodup (exps : Experiments) : Prop :=
  ∀ i, ∀ e ∈ exps i, ∀ ob ∈ e.2, NodupKeys ob.1

/-- The experiments update `update_go` performs when every visited row is
well-formed: at each non-self index `j`, append the logged bouquet and score
under the logged tag. -/
def updFun (sid : Nat) (entf : Nat → Nat × Nat × Bouquet × Option ExpType) (scf : Nat → ℚ) :
    List Nat → Experiments → Experiments
  | [], exps => exps
  | j :: rest, exps =>
      if j = sid then updFun sid entf scf rest exps
      else updFun sid entf scf rest
        (fun x => if x = j then appendObs (exps x) (entf j).2.2.2 ((entf j).2.2.1, scf j)
                  else exps x)

instance instTotalSnd {n : Nat} :
    IsTotal (Fin n × Nat) (fun a b => a.2 ≤ b.2) := ⟨fun a b => Nat.le_total a.2 b.2⟩

instance instTransSnd {n : Nat} :
    IsTrans (Fin n × Nat) (fun a b => a.2 ≤ b.2) := ⟨fun _ _ _ h1 h2 => le_trans h1 h2⟩

/-- The all-zero category used by the concrete claim instances. -/
def f000 : Flower := ⟨0, 0, 0⟩

/-- A fixed control assignment used by the concrete claim instances. -/
def ctrl0 : Controls := ⟨(0, 0), (0, 0), (0, 0)⟩

/-- Observation logs for the C4 tie scenario: both recipients hold the same
single top-scoring recorded bouquet of two `f000` flowers. -/
def expsC4 : Experiments := fun _ => [(some ExpType.color, [([(f000, 2)], 1)])]

/-- Agent state for the C2 counterexample: 3-round game, one recipient, first
call (training, color phase). -/
def stC2 : AgentState :=
  { suitor_id := 0, total_turns := 3, remaining_turns := 3, recipient_ids := [1],
    controls := fun _ => ctrl0, experiments := fun _ => [], last_bouquet := [],
    feedback := [] }

/-- Agent state for the C6 failing input: a game constructed with 0 days. -/
def stC6zero : AgentState :=
  { suitor_id := 0, total_turns := 0, remaining_turns := 0, recipient_ids := [1],
    controls := fun _ => ctrl0, experiments := fun _ => [], last_bouquet := [],
    feedback := [] }

/-- Agent state for the C6 degenerate-but-defined input: a 1-day game. -/
def stC6one : AgentState :=
  { suitor_id := 0, total_turns := 1, remaining_turns := 1, recipient_ids := [1],
    controls := fun _ => ctrl0, experiments := fun _ => [], last_bouquet := [],
    feedback := [] }

section Lemmas

theorem mcount_append {α : Type} [DecidableEq α] (l1 l2 : List α) (x : α) :
    mcount (l1 ++ l2) x = mcount l1 x + mcount l2 x := by
  induction l1 with
  | nil => simp [mcount]
  | cons a l ih =>
      show (if a = x then 1 else 0) + mcount (l ++ l2) x =
        (if a = x then 1 else 0) + mcount l x + mcount l2 x
      rw [ih]
      omega

theorem mcount_replicate {α : Type} [DecidableEq α] (n : Nat) (a x : α) :
    mcount (List.replicate n a) x = if a = x then n else 0 := by
  induction n with
  | zero => simp [mcount]
  | succ k ih => simp only [List.replicate, mcount, ih]; split <;> omega

theorem mcount_flatMap {α β : Type} [DecidableEq β] (l : List α) (g : α → List β) (x : β) :
    mcount (l.flatMap g) x = (l.map (fun a => mcount (g a) x)).sum := by
  induction l with
  | nil => simp [mcount]
  | cons a l ih => simp [List.flatMap_cons, mcount_append, ih]

theorem lookupD_dictSet {α β : Type} [DecidableEq α] (d : List (α × β)) (x y : α) (v : β) :
    lookupD (dictSet d x v) y = if x = y then some v else lookupD d y := by
  induction d with
  | nil => simp [dictSet, lookupD]
  | cons p l ih =>
      by_cases hp : p.1 = x
      · simp only [dictSet]
        rw [if_pos hp]
        show (if x = y then some v else lookupD l y) =
          if x = y then some v else lookupD (p :: l) y
        rcases eq_or_ne x y with h | h
        · rw [if_pos h, if_pos h]
        · have hpy : ¬ p.1 = y := fun hc => h (hp.symm.trans hc)
          rw [if_neg h, if_neg h]
          show lookupD l y = if p.1 = y then some p.2 else lookupD l y
          rw [if_neg hpy]
      · simp only [dictSet]
        rw [if_neg hp]
        show (if p.1 = y then some p.2 else lookupD (dictSet l x v) y) =
          if x = y then some v else lookupD (p :: l) y
        rcases eq_or_ne x y with hxy | hxy
        · have hpy : ¬ p.1 = y := fun hc => hp (hc.trans hxy.symm)
          rw [if_neg hpy, if_pos hxy, ih, if_pos hxy]
        · rw [if_neg hxy]
          show (if p.1 = y then some p.2 else lookupD (dictSet l x v) y) =
            if p.1 = y then some p.2 else lookupD l y
          rcases eq_or_ne p.1 y with h | h
          · rw [if_pos h, if_pos h]
          · rw [if_neg h, if_neg h, ih, if_neg hxy]

theorem dval_dictSet (d : List (Flower × ℤ)) (x y : Flower) (v : ℤ) :
    dval (dictSet d x v) y = if x = y then v else dval d y := by
  unfold dval
  rw [lookupD_dictSet]
  split <;> rfl

theorem mem_dictSet {α β : Type} [DecidableEq α] (d : List (α × β)) (x : α) (v : β)
    (q : α × β) (h : q ∈ dictSet d x v) : q ∈ d ∨ q.1 = x := by
  induction d with
  | nil =>
      simp only [dictSet, List.mem_singleton] at h
      right; rw [h]
  | cons p l ih =>
      by_cases hp : p.1 = x
      · simp only [dictSet, if_pos hp, List.mem_cons] at h
        rcases h with h | h
        · right; rw [h]
        · left; exact List.mem_cons_of_mem _ h
      · simp only [dictSet, if_neg hp, List.mem_cons] at h
        rcases h with h | h
        · left; exact List.mem_cons.mpr (Or.inl h)
        · rcases ih h with h' | h'
          · left; exact List.mem_cons_of_mem _ h'
          · right; exact h'

theorem nodupKeys_dictSet {α β : Type} [DecidableEq α] (d : List (α × β)) (x : α) (v : β)
    (h : NodupKeys d) : NodupKeys (dictSet d x v) := by
  induction d with
  | nil => simp [dictSet, NodupKeys]
  | cons p l ih =>
      rcases List.pairwise_cons.mp h with ⟨hhead, htail⟩
      by_cases hp : p.1 = x
      · unfold dictSet
        rw [if_pos hp]
        refine List.pairwise_cons.mpr ⟨?_, htail⟩
        intro q hq hc
        exact hhead q hq (hp.trans hc)
      · unfold dictSet
        rw [if_neg hp]
        refine List.pairwise_cons.mpr ⟨?_, ih htail⟩
        intro q hq
        rcases mem_dictSet l x v q hq with h' | h'
        · exact hhead q h'
        · rw [h']; exact fun hc => hp hc

theorem lookupD_mem {α β : Type} [DecidableEq α] (d : List (α × β)) (x : α) (v : β)
    (h : lookupD d x = some v) : (x, v) ∈ d := by
  induction d with
  | nil => simp [lookupD] at h
  | cons p l ih =>
      by_cases hp : p.1 = x
      · simp only [lookupD, if_pos hp, Option.some.injEq] at h
        have : p = (x, v) := Prod.ext hp h
        rw [← this]
        exact List.mem_cons_self p l
      · simp only [lookupD, if_neg hp] at h
        exact List.mem_cons_of_mem _ (ih h)

theorem lookupD_dictIncr {α : Type} [DecidableEq α] (d : List (α × Nat)) (a y : α) :
    lookupD (dictIncr d a) y =
      if a = y then some ((lookupD d a).getD 0 + 1) else lookupD d y := by
  induction d with
  | nil => simp [dictIncr, lookupD]
  | cons p l ih =>
      by_cases hp : p.1 = a
      · simp only [dictIncr]
        rw [if_pos hp]
        show (if p.1 = y then some (p.2 + 1) else lookupD l y) =
          if a = y then some ((lookupD (p :: l) a).getD 0 + 1) else lookupD (p :: l) y
        have hla : lookupD (p :: l) a = some p.2 := by
          show (if p.1 = a then some p.2 else lookupD l a) = some p.2
          rw [if_pos hp]
        rcases eq_or_ne a y with h | h
        · have hpy : p.1 = y := hp.trans h
          rw [if_pos hpy, if_pos h, hla]
          rfl
        · have hpy : ¬ p.1 = y := fun hc => h (hp.symm.trans hc)
          rw [if_neg hpy, if_neg h]
          show lookupD l y = if p.1 = y then some p.2 else lookupD l y
          rw [if_neg hpy]
      · simp only [dictIncr]
        rw [if_neg hp]
        show (if p.1 = y then some p.2 else lookupD (dictIncr l a) y) =
          if a = y then some ((lookupD (p :: l) a).getD 0 + 1) else lookupD (p :: l) y
        have hla : lookupD (p :: l) a = lookupD l a := by
          show (if p.1 = a then some p.2 else lookupD l a) = lookupD l a
          rw [if_neg hp]
        rcases eq_or_ne a y with h | h
        · have hpy : ¬ p.1 = y := fun hc => hp (hc.trans h.symm)
          rw [if_neg hpy, if_pos h, ih, if_pos h, hla]
        · rw [if_neg h]
          show (if p.1 = y then some p.2 else lookupD (dictIncr l a) y) =
            if p.1 = y then some p.2 else lookupD l y
          rcases eq_or_ne p.1 y with h2 | h2
          · rw [if_pos h2, if_pos h2]
          · rw [if_neg h2, if_neg h2, ih, if_neg h]

theorem mem_dictIncr {α : Type} [DecidableEq α] (d : List (α × Nat)) (a : α)
    (q : α × Nat) (h : q ∈ dictIncr d a) : (∃ p ∈ d, q.1 = p.1) ∨ q.1 = a := by
  induction d with
  | nil =>
      simp only [dictIncr, List.mem_singleton] at h
      right; rw [h]
  | cons p l ih =>
      by_cases hp : p.1 = a
      · simp only [dictIncr, if_pos hp, List.mem_cons] at h
        rcases h with h | h
        · left; exact ⟨p, List.mem_cons_self p l, by rw [h]⟩
        · left; exact ⟨q, List.mem_cons_of_mem _ h, rfl⟩
      · simp only [dictIncr, if_neg hp, List.mem_cons] at h
        rcases h with h | h
        · left; exact ⟨p, List.mem_cons_self p l, by rw [h]⟩
        · rcases ih h with ⟨p', hp', h'⟩ | h'
          · left; exact ⟨p', List.mem_cons_of_mem _ hp', h'⟩
          · right; exact h'

theorem nodupKeys_dictIncr {α : Type} [DecidableEq α] (d : List (α × Nat)) (a : α)
    (h : NodupKeys d) : NodupKeys (dictIncr d a) := by
  induction d with
  | nil => simp [dictIncr, NodupKeys]
  | cons p l ih =>
      rcases List.pairwise_cons.mp h with ⟨hhead, htail⟩
      by_cases hp : p.1 = a
      · unfold dictIncr
        rw [if_pos hp]
        exact List.pairwise_cons.mpr ⟨fun q hq => hhead q hq, htail⟩
      · unfold dictIncr
        rw [if_neg hp]
        refine List.pairwise_cons.mpr ⟨?_, ih htail⟩
        intro q hq
        rcases mem_dictIncr l a q hq with ⟨p', hp', h'⟩ | h'
        · exact fun hc => hhead p' hp' (hc.trans h')
        · exact fun hc => hp (hc.trans h')

theorem counter_foldl_lookup {α : Type} [DecidableEq α] (l : List α)
    (d : List (α × Nat)) (x : α) :
    (lookupD (l.foldl dictIncr d) x).getD 0 = (lookupD d x).getD 0 + mcount l x := by
  induction l generalizing d with
  | nil => simp [mcount]
  | cons a l ih =>
      simp only [List.foldl_cons, mcount, ih, lookupD_dictIncr]
      rcases eq_or_ne a x with h | h
      · subst h
        rw [if_pos rfl, if_pos rfl]
        simp only [Option.getD_some]
        omega
      · rw [if_neg h, if_neg h]
        omega

theorem counter_lookup {α : Type} [DecidableEq α] (l : List α) (x : α) :
    bcountN (counter l) x = mcount l x := by
  unfold bcountN counter
  rw [counter_foldl_lookup]
  simp [lookupD]

theorem counter_nodup {α : Type} [DecidableEq α] (l : List α) :
    NodupKeys (counter l) := by
  unfold counter
  have h : ∀ d : List (α × Nat), NodupKeys d → NodupKeys (l.foldl dictIncr d) := by
    induction l with
    | nil => intro d hd; simpa using hd
    | cons a l ih => intro d hd; exact ih _ (nodupKeys_dictIncr d a hd)
  exact h [] (by simp [NodupKeys])

theorem sum_dictIncr {α : Type} [DecidableEq α] (d : List (α × Nat)) (a : α) :
    ((dictIncr d a).map Prod.snd).sum = (d.map Prod.snd).sum + 1 := by
  induction d with
  | nil => simp [dictIncr]
  | cons p l ih =>
      by_cases hp : p.1 = a
      · simp only [dictIncr, if_pos hp, List.map_cons, List.sum_cons]; omega
      · simp only [dictIncr, if_neg hp, List.map_cons, List.sum_cons, ih]; omega

theorem counter_total {α : Type} [DecidableEq α] (l : List α) :
    ((counter l).map Prod.snd).sum = l.length := by
  unfold counter
  have h : ∀ d : List (α × Nat),
      ((l.foldl dictIncr d).map Prod.snd).sum = (d.map Prod.snd).sum + l.length := by
    induction l with
    | nil => intro d; simp
    | cons a l ih => intro d; simp only [List.foldl_cons, ih, sum_dictIncr, List.length_cons]; omega
  simpa using h []

theorem lookupD_eq_none {α β : Type} [DecidableEq α] (d : List (α × β)) (x : α)
    (h : ∀ q ∈ d, ¬ q.1 = x) : lookupD d x = none := by
  induction d with
  | nil => rfl
  | cons p l ih =>
      show (if p.1 = x then some p.2 else lookupD l x) = none
      rw [if_neg (h p (List.mem_cons_self p l))]
      exact ih (fun q hq => h q (List.mem_cons_of_mem p hq))

theorem mcount_flatten_counterZ {α : Type} [DecidableEq α] (d : List (α × ℤ)) (x : α)
    (h : NodupKeys d) : mcount (flatten_counterZ d) x = ((lookupD d x).getD 0).toNat := by
  induction d with
  | nil => simp [flatten_counterZ, mcount, lookupD]
  | cons p l ih =>
      rcases List.pairwise_cons.mp h with ⟨hhead, htail⟩
      have hflat : flatten_counterZ (p :: l) =
          List.replicate p.2.toNat p.1 ++ flatten_counterZ l := by
        simp [flatten_counterZ]
      rw [hflat, mcount_append, mcount_replicate, ih htail]
      show _ = ((if p.1 = x then some p.2 else lookupD l x).getD 0).toNat
      rcases eq_or_ne p.1 x with hx | hx
      · have hnone : lookupD l x = none :=
          lookupD_eq_none l x (fun q hq hc => hhead q hq (hx.trans hc.symm))
        rw [hnone]
        simp [hx]
      · rw [if_neg hx]
        simp [hx]

theorem mcount_eraseIdx {α : Type} [DecidableEq α] [Inhabited α] (l : List α) (i : Nat)
    (x : α) (h : i < l.length) :
    mcount l x = (if l.getD i default = x then 1 else 0) + mcount (l.eraseIdx i) x := by
  induction l generalizing i with
  | nil => simp at h
  | cons a t ih =>
      cases i with
      | zero => simp [mcount, List.getD_cons_zero, List.eraseIdx]
      | succ j =>
          have hj : j < t.length := by simpa using h
          show mcount (a :: t) x = (if t.getD j default = x then 1 else 0) +
            mcount (a :: t.eraseIdx j) x
          show (if a = x then 1 else 0) + mcount t x = (if t.getD j default = x then 1 else 0) +
            ((if a = x then 1 else 0) + mcount (t.eraseIdx j) x)
          rw [ih j hj]
          omega

theorem sampleWoR_mcount (k : Nat) (pool : List Flower) (r : Rand) (x : Flower) :
    mcount (sampleWoR k pool r).1 x ≤ mcount pool x := by
  induction k generalizing pool r with
  | zero => simp [sampleWoR, mcount]
  | succ k ih =>
      cases pool with
      | nil => simp [sampleWoR, mcount]
      | cons a t =>
          have hlen : r.headI % (a :: t).length < (a :: t).length :=
            Nat.mod_lt _ (by simp)
          have herase := mcount_eraseIdx (a :: t) (r.headI % (a :: t).length) x hlen
          have hrec := ih ((a :: t).eraseIdx (r.headI % (a :: t).length)) r.tail
          show (if (a :: t).getD (r.headI % (a :: t).length) default = x then 1 else 0) +
            mcount (sampleWoR k ((a :: t).eraseIdx (r.headI % (a :: t).length)) r.tail).1 x ≤
            mcount (a :: t) x
          omega

theorem sampleWoR_length (k : Nat) (pool : List Flower) (r : Rand) :
    (sampleWoR k pool r).1.length ≤ k := by
  induction k generalizing pool r with
  | zero => simp [sampleWoR]
  | succ k ih =>
      cases pool with
      | nil => simp [sampleWoR]
      | cons a t =>
          have := ih ((a :: t).eraseIdx (r.headI % (a :: t).length)) r.tail
          show ((a :: t).getD (r.headI % (a :: t).length) default ::
            (sampleWoR k ((a :: t).eraseIdx (r.headI % (a :: t).length)) r.tail).1).length ≤ k + 1
          simpa using this

theorem getD_map_finRange {n : Nat} {β : Type} (g : Fin n → β) (i : Fin n) (d : β) :
    ((List.finRange n).map g).getD i.val d = g i := by
  have hlen : i.val < ((List.finRange n).map g).length := by
    simp [i.isLt]
  rw [List.getD_eq_getElem _ d hlen]
  simp [List.getElem_finRange]

theorem map_getD_finRange_eq_self (n : Nat) (vals : List Nat) (h : vals.length = n) :
    (List.finRange n).map (fun i => vals.getD i.val 0) = vals := by
  apply List.ext_getElem
  · simp [h]
  · intro i h1 h2
    have hi : i < n := by simpa using h1
    have hiv : i < vals.length := by omega
    simp only [List.getElem_map, List.getElem_finRange]
    exact List.getD_eq_getElem vals 0 hiv

theorem drawExp_length (opts : List ℤ) (r : Rand) :
    (drawExp opts r).1.length = opts.length := by
  induction opts generalizing r with
  | nil => simp [drawExp]
  | cons o rest ih => simp [drawExp, choice0, ih]

theorem drawExp_getD_le (opts : List ℤ) (r : Rand) (i : Nat) :
    (drawExp opts r).1.getD i 0 ≤ (opts.getD i 0).toNat := by
  induction opts generalizing r i with
  | nil => simp [drawExp]
  | cons o rest ih =>
      cases i with
      | zero =>
          show (r.headI % (o.toNat + 1)) ≤ o.toNat
          exact Nat.lt_succ_iff.mp (Nat.mod_lt _ (Nat.succ_pos _))
      | succ j =>
          show (drawExp rest r.tail).1.getD j 0 ≤ (rest.getD j 0).toNat
          exact ih r.tail j

theorem drawExp_sum_le (opts : List ℤ) (r : Rand) :
    (drawExp opts r).1.sum ≤ (opts.map Int.toNat).sum := by
  induction opts generalizing r with
  | nil => simp [drawExp]
  | cons o rest ih =>
      have hhead : r.headI % (o.toNat + 1) ≤ o.toNat :=
        Nat.lt_succ_iff.mp (Nat.mod_lt _ (Nat.succ_pos _))
      have := ih r.tail
      show (r.headI % (o.toNat + 1)) + (drawExp rest r.tail).1.sum ≤
        o.toNat + (rest.map Int.toNat).sum
      omega

theorem sum_map_ite_zero {α : Type} [DecidableEq α] (l : List α) (c : α) (h : α → Nat)
    (hc : c ∉ l) : (l.map (fun a => if a = c then h a else 0)).sum = 0 := by
  induction l with
  | nil => simp
  | cons a t ih =>
      have hac : ¬ a = c := fun hcc => hc (hcc ▸ List.mem_cons_self a t)
      have hct : c ∉ t := fun hmem => hc (List.mem_cons_of_mem a hmem)
      simp [hac, ih hct]

theorem sum_map_ite_eq {α : Type} [DecidableEq α] (l : List α) (c : α) (h : α → Nat)
    (hl : l.Nodup) (hc : c ∈ l) : (l.map (fun a => if a = c then h a else 0)).sum = h c := by
  induction l with
  | nil => simp at hc
  | cons a t ih =>
      rcases List.nodup_cons.mp hl with ⟨hat, ht⟩
      rcases List.mem_cons.mp hc with hca | hct
      · have hz : (t.map (fun b => if b = c then h b else 0)).sum = 0 :=
          sum_map_ite_zero t c h (fun hmem => hat (hca ▸ hmem))
        have hac : a = c := hca.symm
        simp [hac, hz]
      · have hac : ¬ a = c := fun hcc => hat (hcc.symm ▸ hct)
        simp [hac, ih ht hct]

theorem foldl_addCell_color (ft : Fin 4) (fs : Fin 3) (d : Fin 6 → ℤ) :
    ∀ (l : List (Fin 6)), l.Nodup → ∀ (info : FlowerInfo) (c : Fin 6) (t : Fin 4) (s : Fin 3),
      (l.foldl (fun fi c2 => addCell fi c2 ft fs (d c2)) info) c t s =
        info c t s + (if c ∈ l ∧ t = ft ∧ s = fs then d c else 0) := by
  intro l
  induction l with
  | nil => intro _ info c t s; simp
  | cons a tl ih =>
      intro hnd info c t s
      rcases List.nodup_cons.mp hnd with ⟨hat, htl⟩
      show (tl.foldl _ (addCell info a ft fs (d a))) c t s = _
      rw [ih htl]
      have haddc : (addCell info a ft fs (d a)) c t s =
          info c t s + (if c = a ∧ t = ft ∧ s = fs then d a else 0) := by
        unfold addCell setCell
        by_cases h : c = a ∧ t = ft ∧ s = fs
        · rw [if_pos h, if_pos h, h.1, h.2.1, h.2.2]
        · rw [if_neg h, if_neg h]
          ring
      rw [haddc]
      by_cases hts : t = ft ∧ s = fs
      · by_cases hca : c = a
        · have hnmem : c ∉ tl := by rw [hca]; exact hat
          have hmem : c ∈ a :: tl := by rw [hca]; exact List.mem_cons_self a tl
          rw [if_pos ⟨hca, hts⟩, if_neg (fun hc => hnmem hc.1), if_pos ⟨hmem, hts⟩, hca]
          ring
        · rw [if_neg (fun hc => hca hc.1)]
          by_cases hmem : c ∈ tl
          · have hmem2 : c ∈ a :: tl := List.mem_cons_of_mem a hmem
            rw [if_pos ⟨hmem, hts⟩, if_pos ⟨hmem2, hts⟩]
            ring
          · have hnmem2 : c ∉ a :: tl := by
              intro hc
              rcases List.mem_cons.mp hc with hc | hc
              · exact hca hc
              · exact hmem hc
            rw [if_neg (fun hc => hmem hc.1), if_neg (fun hc => hnmem2 hc.1)]
            ring
      · rw [if_neg (fun hc => hts hc.2), if_neg (fun hc => hts hc.2), if_neg (fun hc => hts hc.2)]
        ring

theorem mcount_colorChosen (ds : List Nat) (ft : Fin 4) (fs : Fin 3) (c : Fin 6)
    (t : Fin 4) (s : Fin 3) :
    mcount (colorChosen ds ft fs) ⟨c, t, s⟩ =
      if ft = t ∧ fs = s then ds.getD c.val 0 else 0 := by
  simp only [colorChosen, mcount_flatMap]
  by_cases h : ft = t ∧ fs = s
  · have hmap : ∀ c2 ∈ List.finRange 6,
        mcount (List.replicate (ds.getD c2.val 0) (⟨c2, ft, fs⟩ : Flower))
          (⟨c, t, s⟩ : Flower) =
        (fun c2 : Fin 6 => if c2 = c then ds.getD c2.val 0 else 0) c2 := by
      intro c2 _
      rw [mcount_replicate]
      by_cases hc : c2 = c
      · rw [if_pos (show (⟨c2, ft, fs⟩ : Flower) = ⟨c, t, s⟩ by rw [hc, h.1, h.2])]
        simp [hc]
      · rw [if_neg (fun hcc => hc (congrArg Flower.color hcc))]
        simp [hc]
    rw [List.map_congr_left hmap,
      sum_map_ite_eq (List.finRange 6) c _ (List.nodup_finRange 6) (List.mem_finRange c),
      if_pos h]
  · have hmap : ∀ c2 ∈ List.finRange 6,
        mcount (List.replicate (ds.getD c2.val 0) (⟨c2, ft, fs⟩ : Flower))
          (⟨c, t, s⟩ : Flower) = (fun _ : Fin 6 => 0) c2 := by
      intro c2 _
      rw [mcount_replicate,
        if_neg (fun hcc => h ⟨congrArg Flower.type hcc, congrArg Flower.size hcc⟩)]
    rw [List.map_congr_left hmap, if_neg h]
    simp

theorem colorDecrement_cell (info : FlowerInfo) (ds : List Nat) (ft : Fin 4) (fs : Fin 3)
    (c : Fin 6) (t : Fin 4) (s : Fin 3) :
    colorDecrement info ds ft fs c t s =
      info c t s - (if t = ft ∧ s = fs then (ds.getD c.val 0 : ℤ) else 0) := by
  unfold colorDecrement
  rw [foldl_addCell_color ft fs _ (List.finRange 6) (List.nodup_finRange 6) info c t s]
  by_cases h : t = ft ∧ s = fs
  · rw [if_pos ⟨List.mem_finRange c, h⟩, if_pos h]
    ring
  · rw [if_neg (fun hc => h hc.2), if_neg h]
    ring

theorem colorStep (info : FlowerInfo) (ds : List Nat) (ft : Fin 4) (fs : Fin 3)
    (c : Fin 6) (t : Fin 4) (s : Fin 3) :
    colorDecrement info ds ft fs c t s =
      info c t s - (mcount (colorChosen ds ft fs) ⟨c, t, s⟩ : ℤ) := by
  rw [colorDecrement_cell, mcount_colorChosen]
  by_cases h : t = ft ∧ s = fs
  · rw [if_pos h, if_pos ⟨h.1.symm, h.2.symm⟩]
  · rw [if_neg h, if_neg (fun hc => h ⟨hc.1.symm, hc.2.symm⟩)]
    simp

theorem colorChosen_le (info : FlowerInfo) (r : Rand) (ft : Fin 4) (fs : Fin 3)
    (hpos : ∀ c t s, 0 ≤ info c t s) (c : Fin 6) (t : Fin 4) (s : Fin 3) :
    (mcount (colorChosen (drawExp ((List.finRange 6).map (fun c2 => info c2 ft fs)) r).1
        ft fs) ⟨c, t, s⟩ : ℤ) ≤ info c t s := by
  rw [mcount_colorChosen]
  by_cases h : ft = t ∧ fs = s
  · rw [if_pos h]
    have h1 := drawExp_getD_le ((List.finRange 6).map (fun c2 => info c2 ft fs)) r c.val
    rw [getD_map_finRange (fun c2 => info c2 ft fs) c 0] at h1
    have hp := hpos c ft fs
    rw [← h.1, ← h.2]
    omega
  · rw [if_neg h]
    exact hpos c t s

theorem foldl_addCell_type (fc : Fin 6) (fs : Fin 3) (d : Fin 4 → ℤ) :
    ∀ (l : List (Fin 4)), l.Nodup → ∀ (info : FlowerInfo) (c : Fin 6) (t : Fin 4) (s : Fin 3),
      (l.foldl (fun fi t2 => addCell fi fc t2 fs (d t2)) info) c t s =
        info c t s + (if t ∈ l ∧ c = fc ∧ s = fs then d t else 0) := by
  intro l
  induction l with
  | nil => intro _ info c t s; simp
  | cons a tl ih =>
      intro hnd info c t s
      rcases List.nodup_cons.mp hnd with ⟨hat, htl⟩
      show (tl.foldl _ (addCell info fc a fs (d a))) c t s = _
      rw [ih htl]
      have haddc : (addCell info fc a fs (d a)) c t s =
          info c t s + (if t = a ∧ c = fc ∧ s = fs then d a else 0) := by
        unfold addCell setCell
        by_cases h : c = fc ∧ t = a ∧ s = fs
        · rw [if_pos h, if_pos ⟨h.2.1, h.1, h.2.2⟩, h.1, h.2.1, h.2.2]
        · rw [if_neg h, if_neg (fun hc => h ⟨hc.2.1, hc.1, hc.2.2⟩)]
          ring
      rw [haddc]
      by_cases hts : c = fc ∧ s = fs
      · by_cases hca : t = a
        · have hnmem : t ∉ tl := by rw [hca]; exact hat
          have hmem : t ∈ a :: tl := by rw [hca]; exact List.mem_cons_self a tl
          rw [if_pos ⟨hca, hts⟩, if_neg (fun hc => hnmem hc.1), if_pos ⟨hmem, hts⟩, hca]
          ring
        · rw [if_neg (fun hc => hca hc.1)]
          by_cases hmem : t ∈ tl
          · have hmem2 : t ∈ a :: tl := List.mem_cons_of_mem a hmem
            rw [if_pos ⟨hmem, hts⟩, if_pos ⟨hmem2, hts⟩]
            ring
          · have hnmem2 : t ∉ a :: tl := by
              intro hc
              rcases List.mem_cons.mp hc with hc | hc
              · exact hca hc
              · exact hmem hc
            rw [if_neg (fun hc => hmem hc.1), if_neg (fun hc => hnmem2 hc.1)]
            ring
      · rw [if_neg (fun hc => hts hc.2), if_neg (fun hc => hts hc.2), if_neg (fun hc => hts hc.2)]
        ring

theorem mcount_typeChosen (ds : List Nat) (fc : Fin 6) (fs : Fin 3) (c : Fin 6)
    (t : Fin 4) (s : Fin 3) :
    mcount (typeChosen ds fc fs) ⟨c, t, s⟩ =
      if fc = c ∧ fs = s then ds.getD t.val 0 else 0 := by
  simp only [typeChosen, mcount_flatMap]
  by_cases h : fc = c ∧ fs = s
  · have hmap : ∀ t2 ∈ List.finRange 4,
        mcount (List.replicate (ds.getD t2.val 0) (⟨fc, t2, fs⟩ : Flower))
          (⟨c, t, s⟩ : Flower) =
        (fun t2 : Fin 4 => if t2 = t then ds.getD t2.val 0 else 0) t2 := by
      intro t2 _
      rw [mcount_replicate]
      by_cases hc : t2 = t
      · rw [if_pos (show (⟨fc, t2, fs⟩ : Flower) = ⟨c, t, s⟩ by rw [hc, h.1, h.2])]
        simp [hc]
      · rw [if_neg (fun hcc => hc (congrArg Flower.type hcc))]
        simp [hc]
    rw [List.map_congr_left hmap,
      sum_map_ite_eq (List.finRange 4) t _ (List.nodup_finRange 4) (List.mem_finRange t),
      if_pos h]
  · have hmap : ∀ t2 ∈ List.finRange 4,
        mcount (List.replicate (ds.getD t2.val 0) (⟨fc, t2, fs⟩ : Flower))
          (⟨c, t, s⟩ : Flower) = (fun _ : Fin 4 => 0) t2 := by
      intro t2 _
      rw [mcount_replicate,
        if_neg (fun hcc => h ⟨congrArg Flower.color hcc, congrArg Flower.size hcc⟩)]
    rw [List.map_congr_left hmap, if_neg h]
    simp

theorem typeDecrement_cell (info : FlowerInfo) (ds : List Nat) (fc : Fin 6) (fs : Fin 3)
    (c : Fin 6) (t : Fin 4) (s : Fin 3) :
    typeDecrement info ds fc fs c t s =
      info c t s - (if c = fc ∧ s = fs then (ds.getD t.val 0 : ℤ) else 0) := by
  unfold typeDecrement
  rw [foldl_addCell_type fc fs _ (List.finRange 4) (List.nodup_finRange 4) info c t s]
  by_cases h : c = fc ∧ s = fs
  · rw [if_pos ⟨List.mem_finRange t, h⟩, if_pos h]
    ring
  · rw [if_neg (fun hc => h hc.2), if_neg h]
    ring

theorem typeStep (info : FlowerInfo) (ds : List Nat) (fc : Fin 6) (fs : Fin 3)
    (c : Fin 6) (t : Fin 4) (s : Fin 3) :
    typeDecrement info ds fc fs c t s =
      info c t s - (mcount (typeChosen ds fc fs) ⟨c, t, s⟩ : ℤ) := by
  rw [typeDecrement_cell, mcount_typeChosen]
  by_cases h : c = fc ∧ s = fs
  · rw [if_pos h, if_pos ⟨h.1.symm, h.2.symm⟩]
  · rw [if_neg h, if_neg (fun hc => h ⟨hc.1.symm, hc.2.symm⟩)]
    simp

theorem typeChosen_le (info : FlowerInfo) (r : Rand) (fc : Fin 6) (fs : Fin 3)
    (hpos : ∀ c t s, 0 ≤ info c t s) (c : Fin 6) (t : Fin 4) (s : Fin 3) :
    (mcount (typeChosen (drawExp ((List.finRange 4).map (fun t2 => info fc t2 fs)) r).1
        fc fs) ⟨c, t, s⟩ : ℤ) ≤ info c t s := by
  rw [mcount_typeChosen]
  by_cases h : fc = c ∧ fs = s
  · rw [if_pos h]
    have h1 := drawExp_getD_le ((List.finRange 4).map (fun t2 => info fc t2 fs)) r t.val
    rw [getD_map_finRange (fun t2 => info fc t2 fs) t 0] at h1
    have hp := hpos fc t fs
    rw [← h.1, ← h.2]
    omega
  · rw [if_neg h]
    exact hpos c t s

theorem foldl_addCell_size (fc : Fin 6) (ft : Fin 4) (d : Fin 3 → ℤ) :
    ∀ (l : List (Fin 3)), l.Nodup → ∀ (info : FlowerInfo) (c : Fin 6) (t : Fin 4) (s : Fin 3),
      (l.foldl (fun fi s2 => addCell fi fc ft s2 (d s2)) info) c t s =
        info c t s + (if s ∈ l ∧ c = fc ∧ t = ft then d s else 0) := by
  intro l
  induction l with
  | nil => intro _ info c t s; simp
  | cons a tl ih =>
      intro hnd info c t s
      rcases List.nodup_cons.mp hnd with ⟨hat, htl⟩
      show (tl.foldl _ (addCell info fc ft a (d a))) c t s = _
      rw [ih htl]
      have haddc : (addCell info fc ft a (d a)) c t s =
          info c t s + (if s = a ∧ c = fc ∧ t = ft then d a else 0) := by
        unfold addCell setCell
        by_cases h : c = fc ∧ t = ft ∧ s = a
        · rw [if_pos h, if_pos ⟨h.2.2, h.1, h.2.1⟩, h.1, h.2.1, h.2.2]
        · rw [if_neg h, if_neg (fun hc => h ⟨hc.2.1, hc.2.2, hc.1⟩)]
          ring
      rw [haddc]
      by_cases hts : c = fc ∧ t = ft
      · by_cases hca : s = a
        · have hnmem : s ∉ tl := by rw [hca]; exact hat
          have hmem : s ∈ a :: tl := by rw [hca]; exact List.mem_cons_self a tl
          rw [if_pos ⟨hca, hts⟩, if_neg (fun hc => hnmem hc.1), if_pos ⟨hmem, hts⟩, hca]
          ring
        · rw [if_neg (fun hc => hca hc.1)]
          by_cases hmem : s ∈ tl
          · have hmem2 : s ∈ a :: tl := List.mem_cons_of_mem a hmem
            rw [if_pos ⟨hmem, hts⟩, if_pos ⟨hmem2, hts⟩]
            ring
          · have hnmem2 : s ∉ a :: tl := by
              intro hc
              rcases List.mem_cons.mp hc with hc | hc
              · exact hca hc
              · exact hmem hc
            rw [if_neg (fun hc => hmem hc.1), if_neg (fun hc => hnmem2 hc.1)]
            ring
      · rw [if_neg (fun hc => hts hc.2), if_neg (fun hc => hts hc.2), if_neg (fun hc => hts hc.2)]
        ring

theorem mcount_sizeChosen (ds : List Nat) (fc : Fin 6) (ft : Fin 4) (c : Fin 6)
    (t : Fin 4) (s : Fin 3) :
    mcount (sizeChosen ds fc ft) ⟨c, t, s⟩ =
      if fc = c ∧ ft = t then ds.getD s.val 0 else 0 := by
  simp only [sizeChosen, mcount_flatMap]
  by_cases h : fc = c ∧ ft = t
  · have hmap : ∀ s2 ∈ List.finRange 3,
        mcount (List.replicate (ds.getD s2.val 0) (⟨fc, ft, s2⟩ : Flower))
          (⟨c, t, s⟩ : Flower) =
        (fun s2 : Fin 3 => if s2 = s then ds.getD s2.val 0 else 0) s2 := by
      intro s2 _
      rw [mcount_replicate]
      by_cases hc : s2 = s
      · rw [if_pos (show (⟨fc, ft, s2⟩ : Flower) = ⟨c, t, s⟩ by rw [hc, h.1, h.2])]
        simp [hc]
      · rw [if_neg (fun hcc => hc (congrArg Flower.size hcc))]
        simp [hc]
    rw [List.map_congr_left hmap,
      sum_map_ite_eq (List.finRange 3) s _ (List.nodup_finRange 3) (List.mem_finRange s),
      if_pos h]
  · have hmap : ∀ s2 ∈ List.finRange 3,
        mcount (List.replicate (ds.getD s2.val 0) (⟨fc, ft, s2⟩ : Flower))
          (⟨c, t, s⟩ : Flower) = (fun _ : Fin 3 => 0) s2 := by
      intro s2 _
      rw [mcount_replicate,
        if_neg (fun hcc => h ⟨congrArg Flower.color hcc, congrArg Flower.type hcc⟩)]
    rw [List.map_congr_left hmap, if_neg h]
    simp

theorem sizeDecrement_cell (info : FlowerInfo) (ds : List Nat) (fc : Fin 6) (ft : Fin 4)
    (c : Fin 6) (t : Fin 4) (s : Fin 3) :
    sizeDecrement info ds fc ft c t s =
      info c t s - (if c = fc ∧ t = ft then (ds.getD s.val 0 : ℤ) else 0) := by
  unfold sizeDecrement
  rw [foldl_addCell_size fc ft _ (List.finRange 3) (List.nodup_finRange 3) info c t s]
  by_cases h : c = fc ∧ t = ft
  · rw [if_pos ⟨List.mem_finRange s, h⟩, if_pos h]
    ring
  · rw [if_neg (fun hc => h hc.2), if_neg h]
    ring

theorem sizeStep (info : FlowerInfo) (ds : List Nat) (fc : Fin 6) (ft : Fin 4)
    (c : Fin 6) (t : Fin 4) (s : Fin 3) :
    sizeDecrement info ds fc ft c t s =
      info c t s - (mcount (sizeChosen ds fc ft) ⟨c, t, s⟩ : ℤ) := by
  rw [sizeDecrement_cell, mcount_sizeChosen]
  by_cases h : c = fc ∧ t = ft
  · rw [if_pos h, if_pos ⟨h.1.symm, h.2.symm⟩]
  · rw [if_neg h, if_neg (fun hc => h ⟨hc.1.symm, hc.2.symm⟩)]
    simp

theorem sizeChosen_le (info : FlowerInfo) (r : Rand) (fc : Fin 6) (ft : Fin 4)
    (hpos : ∀ c t s, 0 ≤ info c t s) (c : Fin 6) (t : Fin 4) (s : Fin 3) :
    (mcount (sizeChosen (drawExp ((List.finRange 3).map (fun s2 => info fc ft s2)) r).1
        fc ft) ⟨c, t, s⟩ : ℤ) ≤ info c t s := by
  rw [mcount_sizeChosen]
  by_cases h : fc = c ∧ ft = t
  · rw [if_pos h]
    have h1 := drawExp_getD_le ((List.finRange 3).map (fun s2 => info fc ft s2)) r s.val
    rw [getD_map_finRange (fun s2 => info fc ft s2) s 0] at h1
    have hp := hpos fc ft s
    rw [← h.1, ← h.2]
    omega
  · rw [if_neg h]
    exact hpos c t s

theorem allFlowers_nodup : allFlowers.Nodup := by decide

theorem mem_allFlowers (f : Flower) : f ∈ allFlowers := by
  rcases f with ⟨c, t, s⟩
  unfold allFlowers
  rw [List.mem_flatMap]
  refine ⟨c, List.mem_finRange c, ?_⟩
  rw [List.mem_flatMap]
  refine ⟨t, List.mem_finRange t, ?_⟩
  rw [List.mem_map]
  exact ⟨s, List.mem_finRange s, rfl⟩

theorem lookupD_filter_map_notmem {β : Type} (l : List Flower) (p : Flower → Bool)
    (g : Flower → β) (x : Flower) (hx : x ∉ l) :
    lookupD ((l.filter p).map (fun f => (f, g f))) x = none := by
  apply lookupD_eq_none
  intro q hq
  rw [List.mem_map] at hq
  rcases hq with ⟨f, hf, rfl⟩
  intro hc
  exact hx (hc ▸ List.mem_of_mem_filter hf)

theorem lookupD_filter_map {β : Type} (l : List Flower) (p : Flower → Bool)
    (g : Flower → β) (x : Flower) (hl : l.Nodup) (hx : x ∈ l) :
    lookupD ((l.filter p).map (fun f => (f, g f))) x =
      if p x = true then some (g x) else none := by
  induction l with
  | nil => simp at hx
  | cons a tl ih =>
      rcases List.nodup_cons.mp hl with ⟨hat, htl⟩
      rcases List.mem_cons.mp hx with hxa | hxt
      · subst hxa
        cases hp : p x with
        | true =>
            rw [List.filter_cons_of_pos hp, List.map_cons]
            show (if x = x then some (g x) else _) = _
            rw [if_pos rfl]
            simp
        | false =>
            rw [List.filter_cons_of_neg (by simp [hp]), if_neg (by simp [hp])]
            exact lookupD_filter_map_notmem tl p g x hat
      · have hax : ¬ a = x := fun hc => hat (hc ▸ hxt)
        cases hp : p a with
        | true =>
            rw [List.filter_cons_of_pos hp, List.map_cons]
            show (if a = x then some (g a) else lookupD ((tl.filter p).map _) x) = _
            rw [if_neg hax]
            exact ih htl hxt
        | false =>
            rw [List.filter_cons_of_neg (by simp [hp])]
            exact ih htl hxt

theorem lookupD_list_flowers (info : FlowerInfo) (c : Fin 6) (t : Fin 4) (s : Fin 3) :
    lookupD (_list_flowers info) ⟨c, t, s⟩ =
      if 0 < info c t s then some (info c t s) else none := by
  unfold _list_flowers
  rw [lookupD_filter_map allFlowers _ _ _ allFlowers_nodup (mem_allFlowers ⟨c, t, s⟩)]
  by_cases h : 0 < info c t s
  · rw [if_pos (by simpa using h), if_pos h]
  · rw [if_neg (by simpa using h), if_neg h]

theorem nodupKeys_list_flowers (info : FlowerInfo) : NodupKeys (_list_flowers info) := by
  unfold _list_flowers NodupKeys
  rw [List.pairwise_map]
  have h : (allFlowers.filter (fun f => decide (0 < info f.color f.type f.size))).Nodup :=
    allFlowers_nodup.filter _
  exact List.Pairwise.imp (fun hne => by simpa using hne) h

theorem list_flowers_pos (info : FlowerInfo) (q : Flower × ℤ) (hq : q ∈ _list_flowers info) :
    0 < q.2 := by
  unfold _list_flowers at hq
  rw [List.mem_map] at hq
  rcases hq with ⟨f, hf, rfl⟩
  simpa using List.of_mem_filter hf

theorem mcount_flattenZ_list_flowers (info : FlowerInfo) (c : Fin 6) (t : Fin 4) (s : Fin 3) :
    mcount (flatten_counterZ (_list_flowers info)) ⟨c, t, s⟩ = (info c t s).toNat := by
  rw [mcount_flatten_counterZ _ _ (nodupKeys_list_flowers info), lookupD_list_flowers]
  by_cases h : 0 < info c t s
  · rw [if_pos h]
    rfl
  · rw [if_neg h]
    simp
    omega

theorem foldl_subOne_cell :
    ∀ (chosen : List Flower) (info : FlowerInfo) (c : Fin 6) (t : Fin 4) (s : Fin 3),
      (chosen.foldl (fun fi f => addCell fi f.color f.type f.size (-1)) info) c t s =
        info c t s - (mcount chosen ⟨c, t, s⟩ : ℤ) := by
  intro chosen
  induction chosen with
  | nil => intro info c t s; simp [mcount]
  | cons f tl ih =>
      intro info c t s
      show (tl.foldl _ (addCell info f.color f.type f.size (-1))) c t s = _
      rw [ih]
      have haddc : (addCell info f.color f.type f.size (-1)) c t s =
          info c t s - (if f = ⟨c, t, s⟩ then 1 else 0) := by
        rcases f with ⟨fc, ftp, fsz⟩
        show (setCell info fc ftp fsz (info fc ftp fsz + (-1))) c t s = _
        unfold setCell
        by_cases h : c = fc ∧ t = ftp ∧ s = fsz
        · have hf : (⟨fc, ftp, fsz⟩ : Flower) = ⟨c, t, s⟩ := by
            rw [h.1, h.2.1, h.2.2]
          rw [if_pos h, if_pos hf, h.1, h.2.1, h.2.2]
          ring
        · have hf : ¬ (⟨fc, ftp, fsz⟩ : Flower) = ⟨c, t, s⟩ := by
            intro hc
            injection hc with h1 h2 h3
            exact h ⟨h1.symm, h2.symm, h3.symm⟩
          rw [if_neg h, if_neg hf]
          ring
      rw [haddc]
      show _ = info c t s - ((if f = ⟨c, t, s⟩ then 1 else 0) + mcount tl ⟨c, t, s⟩ : ℕ)
      push_cast
      ring

theorem generate_rand_conserve (info : FlowerInfo) (r : Rand)
    (hpos : ∀ c t s, 0 ≤ info c t s) (c : Fin 6) (t : Fin 4) (s : Fin 3) :
    (_generate_rand_bouquet info r).2.1 c t s =
      info c t s - (mcount (_generate_rand_bouquet info r).1 ⟨c, t, s⟩ : ℤ) ∧
    0 ≤ (_generate_rand_bouquet info r).2.1 c t s := by
  have hconserve : (_generate_rand_bouquet info r).2.1 c t s =
      info c t s - (mcount (_generate_rand_bouquet info r).1 ⟨c, t, s⟩ : ℤ) := by
    unfold _generate_rand_bouquet
    exact foldl_subOne_cell _ info c t s
  refine ⟨hconserve, ?_⟩
  rw [hconserve]
  have hle : mcount (_generate_rand_bouquet info r).1 ⟨c, t, s⟩ ≤ (info c t s).toNat := by
    have hsample : (_generate_rand_bouquet info r).1 =
        (sampleWoR ((choice0 r (min MAX_BOUQUET_SIZE
          (((_list_flowers info).map Prod.snd).sum).toNat)).1)
          (flatten_counterZ (_list_flowers info))
          ((choice0 r (min MAX_BOUQUET_SIZE
            (((_list_flowers info).map Prod.snd).sum).toNat)).2)).1 := rfl
    rw [hsample, ← mcount_flattenZ_list_flowers info c t s]
    exact sampleWoR_mcount _ _ _ _
  have hp := hpos c t s
  omega

theorem prepare_bouquet_conserve (rem : ℤ) (tot : Nat) (ctrl : Controls) (info : FlowerInfo)
    (r : Rand) (chosen : List Flower) (et : Option ExpType) (info2 : FlowerInfo) (r2 : Rand)
    (heq : _prepare_bouquet rem tot ctrl info r = some (chosen, et, info2, r2))
    (hpos : ∀ c t s, 0 ≤ info c t s) (c : Fin 6) (t : Fin 4) (s : Fin 3) :
    info2 c t s = info c t s - (mcount chosen ⟨c, t, s⟩ : ℤ) ∧ 0 ≤ info2 c t s := by
  unfold _prepare_bouquet at heq
  by_cases htot : tot = 0
  · rw [if_pos htot] at heq
    exact absurd heq (by simp)
  · rw [if_neg htot, Option.some_inj] at heq
    have hrand : ∀ (hc : chosen = (_generate_rand_bouquet info r).1)
        (hi : info2 = (_generate_rand_bouquet info r).2.1),
        info2 c t s = info c t s - (mcount chosen ⟨c, t, s⟩ : ℤ) ∧ 0 ≤ info2 c t s := by
      intro hc hi
      rw [hc, hi]
      exact generate_rand_conserve info r hpos c t s
    cases hph : expPhase rem tot with
    | color =>
        rw [hph] at heq
        by_cases hsum : 0 < ((List.finRange 6).map
            (fun c2 => info c2 ctrl.fc_control.1 ctrl.fc_control.2)).sum
        · rw [if_pos hsum] at heq
          simp only [Prod.mk.injEq] at heq
          obtain ⟨h1, _, h3, _⟩ := heq
          rw [← h1, ← h3]
          constructor
          · exact colorStep info _ _ _ c t s
          · rw [colorStep info _ _ _ c t s]
            have hle := colorChosen_le info r ctrl.fc_control.1 ctrl.fc_control.2 hpos c t s
            omega
        · rw [if_neg hsum] at heq
          simp only [Prod.mk.injEq] at heq
          obtain ⟨h1, _, h3, _⟩ := heq
          exact hrand h1.symm h3.symm
    | type =>
        rw [hph] at heq
        by_cases hsum : 0 < ((List.finRange 4).map
            (fun t2 => info ctrl.ft_control.1 t2 ctrl.ft_control.2)).sum
        · rw [if_pos hsum] at heq
          simp only [Prod.mk.injEq] at heq
          obtain ⟨h1, _, h3, _⟩ := heq
          rw [← h1, ← h3]
          constructor
          · exact typeStep info _ _ _ c t s
          · rw [typeStep info _ _ _ c t s]
            have hle := typeChosen_le info r ctrl.ft_control.1 ctrl.ft_control.2 hpos c t s
            omega
        · rw [if_neg hsum] at heq
          simp only [Prod.mk.injEq] at heq
          obtain ⟨h1, _, h3, _⟩ := heq
          exact hrand h1.symm h3.symm
    | size =>
        rw [hph] at heq
        by_cases hsum : 0 < ((List.finRange 3).map
            (fun s2 => info ctrl.fs_control.1 ctrl.fs_control.2 s2)).sum
        · rw [if_pos hsum] at heq
          simp only [Prod.mk.injEq] at heq
          obtain ⟨h1, _, h3, _⟩ := heq
          rw [← h1, ← h3]
          constructor
          · exact sizeStep info _ _ _ c t s
          · rw [sizeStep info _ _ _ c t s]
            have hle := sizeChosen_le info r ctrl.fs_control.1 ctrl.fs_control.2 hpos c t s
            omega
        · rw [if_neg hsum] at heq
          simp only [Prod.mk.injEq] at heq
          obtain ⟨h1, _, h3, _⟩ := heq
          exact hrand h1.symm h3.symm

theorem trainLoop_conserve (rem : ℤ) (tot : Nat) (ctrls : Nat → Controls) :
    ∀ (rids : List Nat) (info : FlowerInfo) (r : Rand) (res : List (Nat × Bouquet × Option ExpType))
      (info2 : FlowerInfo) (r2 : Rand),
      trainLoop rem tot ctrls rids info r = some (res, info2, r2) →
      (∀ c t s, 0 ≤ info c t s) →
      ∀ (c : Fin 6) (t : Fin 4) (s : Fin 3),
        info2 c t s = info c t s - (allocatedT res ⟨c, t, s⟩ : ℤ) ∧ 0 ≤ info2 c t s := by
  intro rids
  induction rids with
  | nil =>
      intro info r res info2 r2 heq hpos c t s
      unfold trainLoop at heq
      rw [Option.some_inj] at heq
      simp only [Prod.mk.injEq] at heq
      obtain ⟨h1, h2, _⟩ := heq
      rw [← h1, ← h2]
      simpa [allocatedT] using hpos c t s
  | cons rid rest ih =>
      intro info r res info2 r2 heq hpos c t s
      unfold trainLoop at heq
      split at heq
      · exact absurd heq (by simp)
      · rename_i chosen et infoA rA hstep
        split at heq
        · exact absurd heq (by simp)
        · rename_i resB infoB rB hrest
          rw [Option.some_inj] at heq
          simp only [Prod.mk.injEq] at heq
          obtain ⟨h1, h2, _⟩ := heq
          have hstepc := fun c t s =>
            prepare_bouquet_conserve rem tot (ctrls rid) info r chosen et infoA rA
              hstep hpos c t s
          have hposA : ∀ c t s, 0 ≤ infoA c t s := fun c t s => (hstepc c t s).2
          have hrec := ih infoA rA resB infoB rB hrest hposA c t s
          rw [← h1, ← h2]
          have hcnt : bcount (counter chosen) ⟨c, t, s⟩ = mcount chosen ⟨c, t, s⟩ :=
            counter_lookup chosen ⟨c, t, s⟩
          have halloc : allocatedT ((rid, counter chosen, et) :: resB) ⟨c, t, s⟩ =
              bcount (counter chosen) ⟨c, t, s⟩ + allocatedT resB ⟨c, t, s⟩ := by
            simp [allocatedT, bcount]
          rw [halloc, hcnt]
          have hA := (hstepc c t s).1
          push_cast
          constructor
          · rw [hrec.1, hA]
            ring
          · exact hrec.2

theorem able_le (b : Bouquet) (inv : List (Flower × ℤ))
    (hable : able_to_create_bouquet b inv = true) (f : Flower) (v : Nat)
    (hv : lookupD b f = some v) : (v : ℤ) ≤ dval inv f := by
  have hmem := lookupD_mem b f v hv
  rw [able_to_create_bouquet, List.all_eq_true] at hable
  have hb := hable (f, v) hmem
  cases hinv : lookupD inv f with
  | none => rw [hinv] at hb; simp at hb
  | some w =>
      rw [hinv] at hb
      simp only [decide_eq_true_eq] at hb
      unfold dval
      rw [hinv]
      simpa using hb

theorem able_dval_le (b : Bouquet) (inv : List (Flower × ℤ))
    (hable : able_to_create_bouquet b inv = true) (hpos : ∀ f, 0 ≤ dval inv f) (f : Flower) :
    (bcount b f : ℤ) ≤ dval inv f := by
  cases hb : lookupD b f with
  | none =>
      unfold bcount bcountN
      rw [hb]
      simpa using hpos f
  | some v =>
      unfold bcount bcountN
      rw [hb]
      simpa using able_le b inv hable f v hb

theorem dval_bouquetSub (b : Bouquet) :
    ∀ (inv : List (Flower × ℤ)), NodupKeys b →
      ∀ f, dval (bouquetSub inv b) f = dval inv f - (bcount b f : ℤ) := by
  induction b with
  | nil => intro inv _ f; simp [bouquetSub, bcount, bcountN, lookupD]
  | cons p l ih =>
      intro inv hnd f
      rcases List.pairwise_cons.mp hnd with ⟨hhead, htail⟩
      show dval (bouquetSub (dictSet inv p.1 (dval inv p.1 - (p.2 : ℤ))) l) f = _
      rw [ih _ htail f, dval_dictSet]
      have hb : bcount (p :: l) f = if p.1 = f then p.2 else bcount l f := by
        unfold bcount bcountN
        show (if p.1 = f then some p.2 else lookupD l f).getD 0 = _
        by_cases hpf : p.1 = f
        · rw [if_pos hpf, if_pos hpf]
          rfl
        · rw [if_neg hpf, if_neg hpf]
      rw [hb]
      by_cases hpf : p.1 = f
      · have hnone : lookupD l f = none :=
          lookupD_eq_none l f (fun q hq hc => hhead q hq (hpf.trans hc.symm))
        have hbl : bcount l f = 0 := by
          unfold bcount bcountN
          rw [hnone]
          rfl
        rw [if_pos hpf, if_pos hpf, hbl, hpf]
        push_cast
        ring
      · rw [if_neg hpf, if_neg hpf]

theorem nodupKeys_bouquetSub (b : Bouquet) :
    ∀ inv, NodupKeys inv → NodupKeys (bouquetSub inv b) := by
  induction b with
  | nil => intro inv h; exact h
  | cons p l ih =>
      intro inv h
      show NodupKeys (bouquetSub (dictSet inv p.1 (dval inv p.1 - (p.2 : ℤ))) l)
      exact ih _ (nodupKeys_dictSet inv p.1 _ h)

theorem scanCommit_eq_find (l : List (Bouquet × ℚ)) (inv : List (Flower × ℤ)) :
    scanCommit l inv = (l.find? (fun p => able_to_create_bouquet p.1 inv)).map
      (fun p => (p.1, bouquetSub inv p.1)) := by
  induction l with
  | nil => rfl
  | cons p rest ih =>
      show (if able_to_create_bouquet p.1 inv = true then _ else scanCommit rest inv) = _
      by_cases h : able_to_create_bouquet p.1 inv = true
      · rw [if_pos h, List.find?_cons_of_pos]
        · rfl
        · exact h
      · rw [if_neg h, List.find?_cons_of_neg, ih]
        exact h

theorem scanCommit_mem (l : List (Bouquet × ℚ)) (inv : List (Flower × ℤ)) (b : Bouquet)
    (inv2 : List (Flower × ℤ)) (h : scanCommit l inv = some (b, inv2)) :
    (∃ q ∈ l, q.1 = b) ∧ able_to_create_bouquet b inv = true ∧ inv2 = bouquetSub inv b := by
  induction l with
  | nil => simp [scanCommit] at h
  | cons p rest ih =>
      unfold scanCommit at h
      by_cases hable : able_to_create_bouquet p.1 inv = true
      · rw [if_pos hable, Option.some_inj] at h
        simp only [Prod.mk.injEq] at h
        obtain ⟨h1, h2⟩ := h
        refine ⟨⟨p, List.mem_cons_self p rest, h1⟩, ?_, ?_⟩
        · rw [← h1]; exact hable
        · rw [← h2, ← h1]
      · rw [if_neg hable] at h
        rcases ih h with ⟨⟨q, hq, hqb⟩, hab, hinv⟩
        exact ⟨⟨q, List.mem_cons_of_mem p hq, hqb⟩, hab, hinv⟩

theorem mergeObs_mem (log : ObsLog) (q : Bouquet × ℚ) (hq : q ∈ sortDesc (mergeObs log)) :
    ∃ e ∈ log, q ∈ e.2 := by
  have h1 : q ∈ mergeObs log := ((List.perm_insertionSort _ _).mem_iff).mp hq
  rw [mergeObs, List.mem_flatMap] at h1
  exact h1

theorem randFinal_conserve (inv : List (Flower × ℤ)) (r : Rand) (hnd : NodupKeys inv)
    (hpos : ∀ f, 0 ≤ dval inv f) :
    (∀ f, dval (randFinal inv r).2.1 f = dval inv f - (bcount (randFinal inv r).1 f : ℤ) ∧
      0 ≤ dval (randFinal inv r).2.1 f) ∧ NodupKeys (randFinal inv r).2.1 := by
  have hfold : (randFinal inv r).2.1 = bouquetSub inv (randFinal inv r).1 := rfl
  have hnd2 : NodupKeys (randFinal inv r).1 := counter_nodup _
  have hcount : ∀ x, bcount (randFinal inv r).1 x ≤ (dval inv x).toNat := by
    intro x
    have h1 : bcount (randFinal inv r).1 x =
        mcount (sampleWoR ((choice0 r (min MAX_BOUQUET_SIZE
            ((inv.map Prod.snd).sum).toNat)).1) (flatten_counterZ inv)
          ((choice0 r (min MAX_BOUQUET_SIZE ((inv.map Prod.snd).sum).toNat)).2)).1 x :=
      counter_lookup _ x
    rw [h1]
    have h2 := sampleWoR_mcount ((choice0 r (min MAX_BOUQUET_SIZE
        ((inv.map Prod.snd).sum).toNat)).1) (flatten_counterZ inv)
      ((choice0 r (min MAX_BOUQUET_SIZE ((inv.map Prod.snd).sum).toNat)).2) x
    have h3 : mcount (flatten_counterZ inv) x = ((lookupD inv x).getD 0).toNat :=
      mcount_flatten_counterZ inv x hnd
    unfold dval
    omega
  constructor
  · intro f
    have hdv := dval_bouquetSub (randFinal inv r).1 inv hnd2 f
    rw [hfold, hdv]
    refine ⟨rfl, ?_⟩
    have h4 := hcount f
    have h5 := hpos f
    omega
  · rw [hfold]
    exact nodupKeys_bouquetSub _ inv hnd

theorem finalStep_conserve (exps : Experiments) (i : Nat) (inv : List (Flower × ℤ))
    (r : Rand) (hlog : LoggedNodup exps) (hnd : NodupKeys inv)
    (hpos : ∀ f, 0 ≤ dval inv f) :
    (∀ f, dval (finalStep exps i inv r).2.1 f =
        dval inv f - (bcount (finalStep exps i inv r).1 f : ℤ) ∧
      0 ≤ dval (finalStep exps i inv r).2.1 f) ∧
    NodupKeys (finalStep exps i inv r).2.1 := by
  unfold finalStep
  by_cases hlen : (exps i).length ≠ 0
  · rw [if_pos hlen]
    cases hscan : scanCommit (sortDesc (mergeObs (exps i))) inv with
    | none => exact randFinal_conserve inv r hnd hpos
    | some val =>
        obtain ⟨b, invA⟩ := val
        rcases scanCommit_mem _ inv b invA hscan with ⟨⟨q, hq, hqb⟩, hable, hsub⟩
        rcases mergeObs_mem (exps i) q hq with ⟨e, he, hqe⟩
        have hbnd : NodupKeys b := hqb ▸ hlog i e he q hqe
        constructor
        · intro f
          show dval invA f = dval inv f - (bcount b f : ℤ) ∧ 0 ≤ dval invA f
          rw [hsub, dval_bouquetSub b inv hbnd f]
          refine ⟨rfl, ?_⟩
          have h1 := able_dval_le b inv hable hpos f
          omega
        · show NodupKeys invA
          rw [hsub]
          exact nodupKeys_bouquetSub b inv hnd
  · rw [if_neg hlen]
    exact randFinal_conserve inv r hnd hpos

theorem finalLoop_conserve (sid : Nat) (exps : Experiments) (hlog : LoggedNodup exps) :
    ∀ (rids : List Nat) (inv : List (Flower × ℤ)) (r : Rand),
      NodupKeys inv → (∀ f, 0 ≤ dval inv f) →
      ∀ f, dval (finalLoop sid exps rids inv r).2.1 f =
          dval inv f - (allocatedF (finalLoop sid exps rids inv r).1 f : ℤ) ∧
        0 ≤ dval (finalLoop sid exps rids inv r).2.1 f := by
  intro rids
  induction rids with
  | nil => intro inv r _ hpos f; simpa [finalLoop, allocatedF] using hpos f
  | cons i rest ih =>
      intro inv r hnd hpos f
      have hstep := finalStep_conserve exps i inv r hlog hnd hpos
      have hndA : NodupKeys (finalStep exps i inv r).2.1 := hstep.2
      have hposA : ∀ g, 0 ≤ dval (finalStep exps i inv r).2.1 g := fun g => (hstep.1 g).2
      have hrec := ih (finalStep exps i inv r).2.1 (finalStep exps i inv r).2.2 hndA hposA f
      have hcons1 : (finalLoop sid exps (i :: rest) inv r).1 =
          (sid, i, (finalStep exps i inv r).1) ::
            (finalLoop sid exps rest (finalStep exps i inv r).2.1
              (finalStep exps i inv r).2.2).1 := rfl
      have hcons2 : (finalLoop sid exps (i :: rest) inv r).2.1 =
          (finalLoop sid exps rest (finalStep exps i inv r).2.1
            (finalStep exps i inv r).2.2).2.1 := rfl
      rw [hcons1, hcons2]
      have halloc : allocatedF ((sid, i, (finalStep exps i inv r).1) ::
          (finalLoop sid exps rest (finalStep exps i inv r).2.1
            (finalStep exps i inv r).2.2).1) f =
          bcount (finalStep exps i inv r).1 f +
            allocatedF (finalLoop sid exps rest (finalStep exps i inv r).2.1
              (finalStep exps i inv r).2.2).1 f := by
        simp [allocatedF]
      rw [halloc]
      have hA := (hstep.1 f).1
      refine ⟨?_, hrec.2⟩
      rw [hrec.1, hA]
      push_cast
      ring

theorem sorted_getLastD_ge {n : Nat} :
    ∀ (l : List (Fin n × Nat)) (d : Fin n × Nat),
      l.Sorted (fun a b => a.2 ≤ b.2) → ∀ x ∈ l, x.2 ≤ (l.getLastD d).2 := by
  intro l
  induction l with
  | nil => intro d _ x hx; simp at hx
  | cons a tl ih =>
      intro d hs x hx
      rw [List.getLastD_cons]
      rcases List.pairwise_cons.mp hs with ⟨hhead, htail⟩
      cases tl with
      | nil =>
          rcases List.mem_singleton.mp hx with rfl
          exact le_rfl
      | cons b tl2 =>
          rcases List.mem_cons.mp hx with rfl | hx2
          · have hb : x.2 ≤ b.2 := hhead b (List.mem_cons_self b tl2)
            have hlast : b.2 ≤ ((b :: tl2).getLastD x).2 :=
              ih x htail b (List.mem_cons_self b tl2)
            exact le_trans hb hlast
          · exact ih a htail x hx2

theorem getLastD_mem {α : Type} : ∀ (l : List α) (d : α), l ≠ [] → l.getLastD d ∈ l := by
  intro l
  induction l with
  | nil => intro d h; exact absurd rfl h
  | cons a tl ih =>
      intro d _
      rw [List.getLastD_cons]
      cases tl with
      | nil => exact List.mem_singleton.mpr rfl
      | cons b tl2 => exact List.mem_cons_of_mem a (ih a (by simp))

theorem bestItem_val (n : Nat) [NeZero n] (vals : List Nat)
    (hperm : vals.Perm (List.range n)) :
    generate_map n vals (bestItem (generate_map n vals)).1 = n - 1 := by
  have hn : 0 < n := Nat.pos_of_ne_zero (NeZero.ne n)
  have hlen : vals.length = n := by
    have := hperm.length_eq
    simpa using this
  set m := generate_map n vals with hm
  have hl_ne : mapItems m ≠ [] := by
    unfold mapItems
    intro hc
    have := congrArg List.length hc
    simp at this
    omega
  have hsorted : (sortByVal (mapItems m)).Sorted (fun a b => a.2 ≤ b.2) :=
    List.sorted_insertionSort _ _
  have hperm2 : (sortByVal (mapItems m)).Perm (mapItems m) :=
    List.perm_insertionSort _ _
  have hsne : sortByVal (mapItems m) ≠ [] := by
    intro hc
    rw [hc] at hperm2
    exact hl_ne hperm2.symm.eq_nil
  have hbest_mem : bestItem m ∈ mapItems m :=
    hperm2.mem_iff.mp (getLastD_mem _ (0, 0) hsne)
  have hbest_eq : (bestItem m).2 = m (bestItem m).1 := by
    unfold mapItems at hbest_mem
    rw [List.mem_map] at hbest_mem
    rcases hbest_mem with ⟨i, _, hi⟩
    rw [← hi]
  have hvals_eq : (List.finRange n).map m = vals := by
    rw [hm]
    exact map_getD_finRange_eq_self n vals hlen
  have hmax_mem : n - 1 ∈ vals := by
    rw [hperm.mem_iff, List.mem_range]
    omega
  have hmax_item : ∃ i : Fin n, m i = n - 1 := by
    rw [← hvals_eq, List.mem_map] at hmax_mem
    rcases hmax_mem with ⟨i, _, hi⟩
    exact ⟨i, hi⟩
  rcases hmax_item with ⟨i0, hi0⟩
  have hitem_mem : (i0, m i0) ∈ sortByVal (mapItems m) := by
    rw [hperm2.mem_iff]
    unfold mapItems
    rw [List.mem_map]
    exact ⟨i0, List.mem_finRange i0, rfl⟩
  have hge : (i0, m i0).2 ≤ (bestItem m).2 :=
    sorted_getLastD_ge (sortByVal (mapItems m)) (0, 0) hsorted _ hitem_mem
  have hub : (bestItem m).2 < n := by
    rw [hbest_eq]
    have hmem : m (bestItem m).1 ∈ vals := by
      rw [← hvals_eq, List.mem_map]
      exact ⟨(bestItem m).1, List.mem_finRange _, rfl⟩
    rw [hperm.mem_iff, List.mem_range] at hmem
    exact hmem
  have : (bestItem m).2 = n - 1 := by
    simp only [hi0] at hge
    omega
  rw [← hbest_eq, this]

theorem finalStep_spec (exps : Experiments) (i : Nat) (inv : List (Flower × ℤ)) (r : Rand) :
    finalStep exps i inv r =
      match specSelect (exps i) inv with
      | some b => (b, bouquetSub inv b, r)
      | none => randFinal inv r := by
  unfold finalStep specSelect
  by_cases hlen : (exps i).length ≠ 0
  · have hne : ¬ exps i = [] := by
      intro hc
      exact hlen (by rw [hc]; rfl)
    rw [if_pos hlen, if_neg hne, scanCommit_eq_find]
    cases hfind : (sortDesc (mergeObs (exps i))).find?
        (fun p => able_to_create_bouquet p.1 inv) with
    | none => rfl
    | some q => rfl
  · have hnil : exps i = [] := by
      rw [← List.length_eq_zero]
      omega
    rw [if_neg hlen, if_pos hnil]

theorem update_go_eq (sid : Nat) (rids : List Nat) (lastb : LastBouquet)
    (results : List (List ℚ)) (entf : Nat → Nat × Nat × Bouquet × Option ExpType)
    (scf : Nat → ℚ) (idxf : Nat → Nat) :
    ∀ (js : List Nat) (exps : Experiments),
      (∀ j ∈ js, j ≠ sid → rids.findIdx? (fun x => decide (x = j)) = some (idxf j)) →
      (∀ j ∈ js, j ≠ sid → lastb.get? (idxf j) = some (entf j)) →
      (∀ j ∈ js, j ≠ sid → (results.get? j).bind (fun row => row.get? 1) = some (scf j)) →
      update_go sid rids lastb results js exps = some (updFun sid entf scf js exps) := by
  intro js
  induction js with
  | nil => intro exps _ _ _; rfl
  | cons j rest ih =>
      intro exps hidx hent hsc
      have hidx2 := fun a ha => hidx a (List.mem_cons_of_mem j ha)
      have hent2 := fun a ha => hent a (List.mem_cons_of_mem j ha)
      have hsc2 := fun a ha => hsc a (List.mem_cons_of_mem j ha)
      by_cases hj : j = sid
      · unfold update_go updFun
        rw [if_pos hj, if_pos hj]
        exact ih exps hidx2 hent2 hsc2
      · have hstep : update_go sid rids lastb results (j :: rest) exps =
            update_go sid rids lastb results rest
              (fun x => if x = j then
                  appendObs (exps x) (entf j).2.2.2 ((entf j).2.2.1, scf j)
                else exps x) := by
          conv_lhs => unfold update_go
          rw [if_neg hj, hidx j (List.mem_cons_self j rest) hj]
          show (match lastb.get? (idxf j) with
            | none => none
            | some e =>
                match (results.get? j).bind (fun row => row.get? 1) with
                | none => none
                | some sc =>
                    update_go sid rids lastb results rest
                      (fun x => if x = j then appendObs (exps x) e.2.2.2 (e.2.2.1, sc)
                                else exps x)) = _
          rw [hent j (List.mem_cons_self j rest) hj]
          show (match (results.get? j).bind (fun row => row.get? 1) with
            | none => none
            | some sc =>
                update_go sid rids lastb results rest
                  (fun x => if x = j then
                      appendObs (exps x) (entf j).2.2.2 ((entf j).2.2.1, sc)
                    else exps x)) = _
          rw [hsc j (List.mem_cons_self j rest) hj]
        rw [hstep]
        unfold updFun
        rw [if_neg hj]
        exact ih _ hidx2 hent2 hsc2

theorem updFun_notmem (sid : Nat) (entf : Nat → Nat × Nat × Bouquet × Option ExpType)
    (scf : Nat → ℚ) :
    ∀ (js : List Nat) (exps : Experiments) (x : Nat), x ∉ js →
      updFun sid entf scf js exps x = exps x := by
  intro js
  induction js with
  | nil => intro exps x _; rfl
  | cons j rest ih =>
      intro exps x hx
      have hxj : x ≠ j := fun hc => hx (hc ▸ List.mem_cons_self j rest)
      have hxr : x ∉ rest := fun hc => hx (List.mem_cons_of_mem j hc)
      unfold updFun
      by_cases hj : j = sid
      · rw [if_pos hj]
        exact ih exps x hxr
      · rw [if_neg hj, ih _ x hxr]
        show (if x = j then
            appendObs (exps x) (entf j).2.2.2 ((entf j).2.2.1, scf j)
          else exps x) = exps x
        rw [if_neg hxj]

theorem updFun_mem (sid : Nat) (entf : Nat → Nat × Nat × Bouquet × Option ExpType)
    (scf : Nat → ℚ) :
    ∀ (js : List Nat) (exps : Experiments) (x : Nat), js.Nodup → x ∈ js → x ≠ sid →
      updFun sid entf scf js exps x =
        appendObs (exps x) (entf x).2.2.2 ((entf x).2.2.1, scf x) := by
  intro js
  induction js with
  | nil => intro exps x _ hx _; simp at hx
  | cons j rest ih =>
      intro exps x hnd hx hxs
      rcases List.nodup_cons.mp hnd with ⟨hjr, hrest⟩
      unfold updFun
      rcases List.mem_cons.mp hx with rfl | hxr
      · rw [if_neg hxs, updFun_notmem sid entf scf rest _ x hjr]
        show (if x = x then
            appendObs (exps x) (entf x).2.2.2 ((entf x).2.2.1, scf x)
          else exps x) = _
        rw [if_pos rfl]
      · have hxj : x ≠ j := fun hc => hjr (hc ▸ hxr)
        by_cases hj : j = sid
        · rw [if_pos hj]
          exact ih exps x hrest hxr hxs
        · rw [if_neg hj, ih _ x hrest hxr hxs]
          show appendObs (if x = j then
              appendObs (exps x) (entf j).2.2.2 ((entf j).2.2.1, scf j)
            else exps x) (entf x).2.2.2 ((entf x).2.2.1, scf x) = _
          rw [if_neg hxj]

theorem recipientIds_length (n sid : Nat) (h : sid < n) :
    (recipientIds n sid).length = n - 1 := by
  induction n with
  | zero => omega
  | succ k ih =>
      unfold recipientIds
      rw [List.range_succ, List.filter_append]
      by_cases hs : sid = k
      · have hfull : (List.range k).filter (fun i => decide (i ≠ sid)) = List.range k := by
          rw [List.filter_eq_self]
          intro a ha
          rw [List.mem_range] at ha
          simp
          omega
        have hone : ([k].filter (fun i => decide (i ≠ sid))) = [] := by
          simp [hs]
        rw [hfull, hone]
        simp
      · have hlt : sid < k := by omega
        have hone : ([k].filter (fun i => decide (i ≠ sid))) = [k] := by
          simp
          omega
        rw [hone]
        have := ih hlt
        unfold recipientIds at this
        rw [List.length_append, this]
        simp
        omega

theorem mem_recipientIds (n sid x : Nat) : x ∈ recipientIds n sid ↔ x < n ∧ x ≠ sid := by
  unfold recipientIds
  rw [List.mem_filter, List.mem_range]
  simp

theorem assignGo_isSome (len : Nat) (fcOpts : List (Fin 4 × Fin 3))
    (ftOpts : List (Fin 6 × Fin 3)) (fsOpts : List (Fin 6 × Fin 4)) :
    ∀ rids : List Nat,
      (∀ rid ∈ rids, rid % len < fcOpts.length ∧ rid % len < ftOpts.length ∧
        rid % len < fsOpts.length) →
      (assignGo len fcOpts ftOpts fsOpts rids).isSome = true := by
  intro rids
  induction rids with
  | nil => intro _; rfl
  | cons rid rest ih =>
      intro h
      obtain ⟨h1, h2, h3⟩ := h rid (List.mem_cons_self rid rest)
      have hrest := ih (fun a ha => h a (List.mem_cons_of_mem rid ha))
      rcases Option.isSome_iff_exists.mp hrest with ⟨tail, htail⟩
      have hfc := List.get?_eq_get h1
      have hft := List.get?_eq_get h2
      have hfs := List.get?_eq_get h3
      unfold assignGo
      rw [hfc, hft, hfs, htail]
      rfl

theorem choice0_le (r : Rand) (n : Nat) : (choice0 r n).1 ≤ n :=
  Nat.lt_succ_iff.mp (Nat.mod_lt _ (Nat.succ_pos n))

theorem generate_rand_length (info : FlowerInfo) (r : Rand) :
    (_generate_rand_bouquet info r).1.length ≤ MAX_BOUQUET_SIZE := by
  have h1 : (_generate_rand_bouquet info r).1 =
      (sampleWoR ((choice0 r (min MAX_BOUQUET_SIZE
          (((_list_flowers info).map Prod.snd).sum).toNat)).1)
        (flatten_counterZ (_list_flowers info))
        ((choice0 r (min MAX_BOUQUET_SIZE
          (((_list_flowers info).map Prod.snd).sum).toNat)).2)).1 := rfl
  rw [h1]
  have h2 := sampleWoR_length ((choice0 r (min MAX_BOUQUET_SIZE
      (((_list_flowers info).map Prod.snd).sum).toNat)).1)
    (flatten_counterZ (_list_flowers info))
    ((choice0 r (min MAX_BOUQUET_SIZE (((_list_flowers info).map Prod.snd).sum).toNat)).2)
  have h3 := choice0_le r (min MAX_BOUQUET_SIZE
    (((_list_flowers info).map Prod.snd).sum).toNat)
  have h4 : min MAX_BOUQUET_SIZE (((_list_flowers info).map Prod.snd).sum).toNat ≤
      MAX_BOUQUET_SIZE := Nat.min_le_left _ _
  omega

theorem randFinal_total (inv : List (Flower × ℤ)) (r : Rand) :
    bouquetTotal (randFinal inv r).1 ≤ MAX_BOUQUET_SIZE := by
  have h1 : bouquetTotal (randFinal inv r).1 =
      (sampleWoR ((choice0 r (min MAX_BOUQUET_SIZE ((inv.map Prod.snd).sum).toNat)).1)
        (flatten_counterZ inv)
        ((choice0 r (min MAX_BOUQUET_SIZE ((inv.map Prod.snd).sum).toNat)).2)).1.length :=
    counter_total _
  rw [h1]
  have h2 := sampleWoR_length ((choice0 r (min MAX_BOUQUET_SIZE
      ((inv.map Prod.snd).sum).toNat)).1) (flatten_counterZ inv)
    ((choice0 r (min MAX_BOUQUET_SIZE ((inv.map Prod.snd).sum).toNat)).2)
  have h3 := choice0_le r (min MAX_BOUQUET_SIZE ((inv.map Prod.snd).sum).toNat)
  have h4 : min MAX_BOUQUET_SIZE ((inv.map Prod.snd).sum).toNat ≤ MAX_BOUQUET_SIZE :=
    Nat.min_le_left _ _
  omega

theorem map_getD_finRangeN (n : Nat) (ds : List Nat) (h : ds.length = n) :
    (List.finRange n).map (fun i => ds.getD i.val 0) = ds :=
  map_getD_finRange_eq_self n ds h

theorem colorChosen_length_le (g : Fin 6 → ℤ) (r : Rand) (ft : Fin 4) (fs : Fin 3) :
    (colorChosen (drawExp ((List.finRange 6).map g) r).1 ft fs).length ≤
      ((List.finRange 6).map (fun c => (g c).toNat)).sum := by
  have hlen : (drawExp ((List.finRange 6).map g) r).1.length = 6 := by
    rw [drawExp_length]
    simp
  have h1 : (colorChosen (drawExp ((List.finRange 6).map g) r).1 ft fs).length =
      ((List.finRange 6).map
        (fun c => (drawExp ((List.finRange 6).map g) r).1.getD c.val 0)).sum := by
    unfold colorChosen
    rw [List.length_flatMap]
    congr 1
    apply List.map_congr_left
    intro c _
    simp
  rw [h1, map_getD_finRangeN 6 _ hlen]
  have h2 := drawExp_sum_le ((List.finRange 6).map g) r
  rw [List.map_map] at h2
  exact h2

theorem typeChosen_length_le (g : Fin 4 → ℤ) (r : Rand) (fc : Fin 6) (fs : Fin 3) :
    (typeChosen (drawExp ((List.finRange 4).map g) r).1 fc fs).length ≤
      ((List.finRange 4).map (fun t => (g t).toNat)).sum := by
  have hlen : (drawExp ((List.finRange 4).map g) r).1.length = 4 := by
    rw [drawExp_length]
    simp
  have h1 : (typeChosen (drawExp ((List.finRange 4).map g) r).1 fc fs).length =
      ((List.finRange 4).map
        (fun t => (drawExp ((List.finRange 4).map g) r).1.getD t.val 0)).sum := by
    unfold typeChosen
    rw [List.length_flatMap]
    congr 1
    apply List.map_congr_left
    intro t _
    simp
  rw [h1, map_getD_finRangeN 4 _ hlen]
  have h2 := drawExp_sum_le ((List.finRange 4).map g) r
  rw [List.map_map] at h2
  exact h2

theorem sizeChosen_length_le (g : Fin 3 → ℤ) (r : Rand) (fc : Fin 6) (ft : Fin 4) :
    (sizeChosen (drawExp ((List.finRange 3).map g) r).1 fc ft).length ≤
      ((List.finRange 3).map (fun s => (g s).toNat)).sum := by
  have hlen : (drawExp ((List.finRange 3).map g) r).1.length = 3 := by
    rw [drawExp_length]
    simp
  have h1 : (sizeChosen (drawExp ((List.finRange 3).map g) r).1 fc ft).length =
      ((List.finRange 3).map
        (fun s => (drawExp ((List.finRange 3).map g) r).1.getD s.val 0)).sum := by
    unfold sizeChosen
    rw [List.length_flatMap]
    congr 1
    apply List.map_congr_left
    intro s _
    simp
  rw [h1, map_getD_finRangeN 3 _ hlen]
  have h2 := drawExp_sum_le ((List.finRange 3).map g) r
  rw [List.map_map] at h2
  exact h2

theorem tabularize_fold (d : List (Flower × ℤ)) :
    ∀ (info : FlowerInfo) (c : Fin 6) (t : Fin 4) (s : Fin 3), NodupKeys d →
      (d.foldl (fun info p => setCell info p.1.color p.1.type p.1.size p.2) info) c t s =
        (lookupD d ⟨c, t, s⟩).getD (info c t s) := by
  induction d with
  | nil => intro info c t s _; rfl
  | cons p l ih =>
      intro info c t s hnd
      rcases List.pairwise_cons.mp hnd with ⟨hhead, htail⟩
      show (l.foldl _ (setCell info p.1.color p.1.type p.1.size p.2)) c t s = _
      rw [ih _ c t s htail]
      have hset : (setCell info p.1.color p.1.type p.1.size p.2) c t s =
          if p.1 = ⟨c, t, s⟩ then p.2 else info c t s := by
        unfold setCell
        rcases hp : p.1 with ⟨pc, pt, ps⟩
        by_cases h : c = pc ∧ t = pt ∧ s = ps
        · have hf : (⟨pc, pt, ps⟩ : Flower) = ⟨c, t, s⟩ := by rw [h.1, h.2.1, h.2.2]
          rw [if_pos h, if_pos hf]
        · have hf : ¬ (⟨pc, pt, ps⟩ : Flower) = ⟨c, t, s⟩ := by
            intro hc
            injection hc with h1 h2 h3
            exact h ⟨h1.symm, h2.symm, h3.symm⟩
          rw [if_neg h, if_neg hf]
      show _ = (if p.1 = ⟨c, t, s⟩ then some p.2 else lookupD l ⟨c, t, s⟩).getD (info c t s)
      by_cases hpf : p.1 = ⟨c, t, s⟩
      · have hnone : lookupD l ⟨c, t, s⟩ = none :=
          lookupD_eq_none l _ (fun q hq hc => hhead q hq (hpf.trans hc.symm))
        rw [hnone, if_pos hpf, hset, if_pos hpf]
        rfl
      · rw [if_neg hpf, hset, if_neg hpf]

theorem tabularize_cell (d : List (Flower × ℤ)) (hnd : NodupKeys d) (c : Fin 6) (t : Fin 4)
    (s : Fin 3) :
    _tabularize_flowers d c t s = (lookupD d ⟨c, t, s⟩).getD 0 := by
  unfold _tabularize_flowers
  rw [tabularize_fold d _ c t s hnd]

end Lemmas

section Claims

/-- C6 (code_bug evaluation): with `total_turns = 0` the single call to
`prepare_bouquets` reaches the training branch with `remaining_turns = -1`
and evaluates `remaining_turns / total_turns` with a zero divisor — the
embedded agent returns `none` (the `ZeroDivisionError`); with
`total_turns = 1` the call takes the final-round path and yields a defined
result. -/
theorem C6_division_by_zero :
    prepare_bouquets stC6zero [(f000, 1)] [] = none ∧
    (prepare_bouquets stC6one [(f000, 1)] [0]).isSome = true :=
  ⟨rfl, rfl⟩

/-- C4: the final round commits, per recipient with a non-empty observation
log, to the first bouquet of the merged stable-descending-by-score
observation list that is constructible from the remaining inventory,
decrementing the inventory by it; otherwise (empty log or nothing
constructible) the recipient gets the random fallback — in particular, when
two recipients share an identical top bouquet that the inventory satisfies
once, the second falls back to random instead of raising. -/
theorem C4_final_selection :
    (∀ (sid : Nat) (exps : Experiments) (i : Nat) (rest : List Nat)
        (inv : List (Flower × ℤ)) (r : Rand),
      finalLoop sid exps (i :: rest) inv r =
        match specSelect (exps i) inv with
        | some b =>
            ((sid, i, b) :: (finalLoop sid exps rest (bouquetSub inv b) r).1,
              (finalLoop sid exps rest (bouquetSub inv b) r).2)
        | none =>
            ((sid, i, (randFinal inv r).1) ::
                (finalLoop sid exps rest (randFinal inv r).2.1 (randFinal inv r).2.2).1,
              (finalLoop sid exps rest (randFinal inv r).2.1 (randFinal inv r).2.2).2)) ∧
    (finalLoop 0 expsC4 [1, 2] [(f000, 2)] []).1 =
      [(0, 1, [(f000, 2)]), (0, 2, [])] := by
  constructor
  · intro sid exps i rest inv r
    conv_lhs => unfold finalLoop
    rw [finalStep_spec exps i inv r]
    cases hsel : specSelect (exps i) inv with
    | some b => rfl
    | none => rfl
  · rfl

/-- C2 counterexample: a training-round experiment bouquet built by
`prepare_bouquets` (color phase, 13 matching flowers in stock, maximal
draw) holds 13 flowers — more than `MAX_BOUQUET_SIZE = 12`. -/
theorem C2_counterexample :
    (prepare_bouquets stC2 [(f000, 13)] [13]).map (fun o => o.1) =
      some [(0, 1, [(f000, 13)])] ∧
    ¬ bouquetTotal [(f000, 13)] ≤ MAX_BOUQUET_SIZE := by
  constructor
  · have hphase : expPhase (3 - 1 : ℤ) 3 = ExpType.color := by
      unfold expPhase C_T_S_SPLIT
      norm_num
    simp only [prepare_bouquets, stC2, trainLoop, _prepare_bouquet]
    rw [hphase]
    rfl
  · decide

/-- C2 amended: the random-fallback bouquets (training fallback and
final-round random) always hold at most `MAX_BOUQUET_SIZE` flowers, while an
experiment bouquet is bounded only by the stock of its control slice (the
counterexample shows it can exceed `MAX_BOUQUET_SIZE`). -/
theorem C2_amended :
    (∀ (info : FlowerInfo) (r : Rand),
      (_generate_rand_bouquet info r).1.length ≤ MAX_BOUQUET_SIZE) ∧
    (∀ (inv : List (Flower × ℤ)) (r : Rand),
      bouquetTotal (randFinal inv r).1 ≤ MAX_BOUQUET_SIZE) ∧
    (∀ (g : Fin 6 → ℤ) (r : Rand) (ft : Fin 4) (fs : Fin 3),
      (colorChosen (drawExp ((List.finRange 6).map g) r).1 ft fs).length ≤
        ((List.finRange 6).map (fun c => (g c).toNat)).sum) ∧
    (∀ (g : Fin 4 → ℤ) (r : Rand) (fc : Fin 6) (fs : Fin 3),
      (typeChosen (drawExp ((List.finRange 4).map g) r).1 fc fs).length ≤
        ((List.finRange 4).map (fun t => (g t).toNat)).sum) ∧
    (∀ (g : Fin 3 → ℤ) (r : Rand) (fc : Fin 6) (ft : Fin 4),
      (sizeChosen (drawExp ((List.finRange 3).map g) r).1 fc ft).length ≤
        ((List.finRange 3).map (fun s => (g s).toNat)).sum) :=
  ⟨generate_rand_length, randFinal_total, colorChosen_length_le, typeChosen_length_le,
    sizeChosen_length_le⟩

/-- C7: for a training round the experiment axis is a function of the
elapsed-round fraction alone — color exactly when remaining/total ≥ 2/3,
type exactly when the ratio lies in [1/3, 2/3), size otherwise — and the tag
`_prepare_bouquet` returns is that phase's axis or `none` (random
fallback). -/
theorem C7_phase_partition (remaining : ℤ) (total : Nat) (htot : 0 < total) :
    (expPhase remaining total = ExpType.color ↔
      (remaining : ℚ) / (total : ℚ) ≥ 2 / 3) ∧
    (expPhase remaining total = ExpType.type ↔
      (1 : ℚ) / 3 ≤ (remaining : ℚ) / (total : ℚ) ∧
        (remaining : ℚ) / (total : ℚ) < 2 / 3) ∧
    (expPhase remaining total = ExpType.size ↔
      (remaining : ℚ) / (total : ℚ) < 1 / 3) ∧
    (∀ (ctrl : Controls) (info : FlowerInfo) (r : Rand)
        (out : List Flower × Option ExpType × FlowerInfo × Rand),
      _prepare_bouquet remaining total ctrl info r = some out →
      out.2.1 = some (expPhase remaining total) ∨ out.2.1 = none) := by
  have hq2 : C_T_S_SPLIT * 2 = (2 : ℚ) / 3 := by norm_num [C_T_S_SPLIT]
  have hq1 : C_T_S_SPLIT = (1 : ℚ) / 3 := by norm_num [C_T_S_SPLIT]
  have h4 : ∀ (ctrl : Controls) (info : FlowerInfo) (r : Rand)
      (out : List Flower × Option ExpType × FlowerInfo × Rand),
      _prepare_bouquet remaining total ctrl info r = some out →
      out.2.1 = some (expPhase remaining total) ∨ out.2.1 = none := by
    intro ctrl info r out heq
    unfold _prepare_bouquet at heq
    rw [if_neg (by omega), Option.some_inj] at heq
    cases hph : expPhase remaining total with
    | color =>
        rw [hph] at heq
        by_cases hsum : 0 < ((List.finRange 6).map
            (fun c2 => info c2 ctrl.fc_control.1 ctrl.fc_control.2)).sum
        · rw [if_pos hsum] at heq
          exact Or.inl (by rw [← heq])
        · rw [if_neg hsum] at heq
          exact Or.inr (by rw [← heq])
    | type =>
        rw [hph] at heq
        by_cases hsum : 0 < ((List.finRange 4).map
            (fun t2 => info ctrl.ft_control.1 t2 ctrl.ft_control.2)).sum
        · rw [if_pos hsum] at heq
          exact Or.inl (by rw [← heq])
        · rw [if_neg hsum] at heq
          exact Or.inr (by rw [← heq])
    | size =>
        rw [hph] at heq
        by_cases hsum : 0 < ((List.finRange 3).map
            (fun s2 => info ctrl.fs_control.1 ctrl.fs_control.2 s2)).sum
        · rw [if_pos hsum] at heq
          exact Or.inl (by rw [← heq])
        · rw [if_neg hsum] at heq
          exact Or.inr (by rw [← heq])
  by_cases h2 : (remaining : ℚ) / (total : ℚ) ≥ 2 / 3
  · have hph : expPhase remaining total = ExpType.color := by
      unfold expPhase
      rw [if_pos (by rw [hq2]; exact h2)]
    refine ⟨⟨fun _ => h2, fun _ => hph⟩, ⟨?_, ?_⟩, ⟨?_, ?_⟩, h4⟩
    · intro h
      rw [hph] at h
      exact absurd h (by decide)
    · intro h
      exact absurd h.2 (not_lt.mpr h2)
    · intro h
      rw [hph] at h
      exact absurd h (by decide)
    · intro h
      have : (1 : ℚ) / 3 < 2 / 3 := by norm_num
      exact absurd (lt_of_lt_of_le h (le_trans this.le h2)) (lt_irrefl _)
  · by_cases h1 : (1 : ℚ) / 3 ≤ (remaining : ℚ) / (total : ℚ)
    · have hph : expPhase remaining total = ExpType.type := by
        unfold expPhase
        rw [if_neg (by rw [hq2]; exact h2), if_pos (by rw [hq1]; exact h1)]
      refine ⟨⟨?_, ?_⟩, ⟨fun _ => ⟨h1, not_le.mp h2⟩, fun _ => hph⟩, ⟨?_, ?_⟩, h4⟩
      · intro h
        rw [hph] at h
        exact absurd h (by decide)
      · intro h
        exact absurd h h2
      · intro h
        rw [hph] at h
        exact absurd h (by decide)
      · intro h
        exact absurd h (not_lt.mpr h1)
    · have hph : expPhase remaining total = ExpType.size := by
        unfold expPhase
        rw [if_neg (by rw [hq2]; exact h2), if_neg (by rw [hq1]; exact h1)]
      refine ⟨⟨?_, ?_⟩, ⟨?_, ?_⟩, ⟨fun _ => not_le.mp h1, fun _ => hph⟩, h4⟩
      · intro h
        rw [hph] at h
        exact absurd h (by decide)
      · intro h
        exact absurd h h2
      · intro h
        rw [hph] at h
        exact absurd h (by decide)
      · intro h
        exact absurd h.1 h1

/-- Witness for C7 at remaining 2 of total 3 (the color phase). -/
theorem C7_phase_partition_witness :
    0 < 3 ∧ (expPhase 2 3 = ExpType.color ↔
      ((2 : ℤ) : ℚ) / ((3 : ℕ) : ℚ) ≥ 2 / 3) :=
  ⟨by decide, (C7_phase_partition 2 3 (by decide)).1⟩

/-- C1 counterexample: with identity value permutations the one-score
bouquet self-scores 1/3 — not 1 — on the types axis (the per-axis maximum is
`(len - 1) / (3 * (len - 1)) = 1/3`; only the three axes together sum
to 1). -/
theorem C1_counterexample :
    ¬ score_types (generate_map 4 [0, 1, 2, 3])
        (bouquetTypes (one_score_bouquet (generate_map 6 [0, 1, 2, 3, 4, 5])
          (generate_map 4 [0, 1, 2, 3]) (generate_map 3 [0, 1, 2]))) = 1 := by
  have hb : bouquetTypes (one_score_bouquet (generate_map 6 [0, 1, 2, 3, 4, 5])
      (generate_map 4 [0, 1, 2, 3]) (generate_map 3 [0, 1, 2])) = [(3, 1)] := by rfl
  rw [hb]
  have hf : flatten_counter [((3 : Fin 4), 1)] = [3] := by rfl
  norm_num [score_types, meanVals, hf, generate_map]
  show ¬ (((3 : Nat) : ℚ)) / 9 = 1
  norm_num

/-- C1 amended: for every shuffle outcome, the zero-score bouquet self-scores
exactly 0 on all three axes, and the one-score bouquet self-scores exactly
1/3 on each axis, so that its three per-axis scores sum to exactly 1. -/
theorem C1_amended (vc vt vs : List Nat) (hc : vc.Perm (List.range 6))
    (ht : vt.Perm (List.range 4)) (hs : vs.Perm (List.range 3)) :
    score_colors (generate_map 6 vc) (bouquetColors zero_score_bouquet) = 0 ∧
    score_types (generate_map 4 vt) (bouquetTypes zero_score_bouquet) = 0 ∧
    score_sizes (generate_map 3 vs) (bouquetSizes zero_score_bouquet) = 0 ∧
    score_colors (generate_map 6 vc) (bouquetColors (one_score_bouquet
      (generate_map 6 vc) (generate_map 4 vt) (generate_map 3 vs))) = 1 / 3 ∧
    score_types (generate_map 4 vt) (bouquetTypes (one_score_bouquet
      (generate_map 6 vc) (generate_map 4 vt) (generate_map 3 vs))) = 1 / 3 ∧
    score_sizes (generate_map 3 vs) (bouquetSizes (one_score_bouquet
      (generate_map 6 vc) (generate_map 4 vt) (generate_map 3 vs))) = 1 / 3 := by
  have hbc : bouquetColors (one_score_bouquet (generate_map 6 vc) (generate_map 4 vt)
      (generate_map 3 vs)) = [((bestItem (generate_map 6 vc)).1, 1)] := rfl
  have hbt : bouquetTypes (one_score_bouquet (generate_map 6 vc) (generate_map 4 vt)
      (generate_map 3 vs)) = [((bestItem (generate_map 4 vt)).1, 1)] := rfl
  have hbs : bouquetSizes (one_score_bouquet (generate_map 6 vc) (generate_map 4 vt)
      (generate_map 3 vs)) = [((bestItem (generate_map 3 vs)).1, 1)] := rfl
  refine ⟨rfl, rfl, rfl, ?_, ?_, ?_⟩
  · rw [hbc]
    unfold score_colors
    rw [if_neg (by simp)]
    have hmean : meanVals (generate_map 6 vc) [((bestItem (generate_map 6 vc)).1, 1)] =
        ((generate_map 6 vc (bestItem (generate_map 6 vc)).1 : Nat) : ℚ) := by
      unfold meanVals flatten_counter
      simp
    rw [hmean, bestItem_val 6 vc hc]
    norm_num
  · rw [hbt]
    unfold score_types
    rw [if_neg (by simp)]
    have hmean : meanVals (generate_map 4 vt) [((bestItem (generate_map 4 vt)).1, 1)] =
        ((generate_map 4 vt (bestItem (generate_map 4 vt)).1 : Nat) : ℚ) := by
      unfold meanVals flatten_counter
      simp
    rw [hmean, bestItem_val 4 vt ht]
    norm_num
  · rw [hbs]
    unfold score_sizes
    rw [if_neg (by simp)]
    have hmean : meanVals (generate_map 3 vs) [((bestItem (generate_map 3 vs)).1, 1)] =
        ((generate_map 3 vs (bestItem (generate_map 3 vs)).1 : Nat) : ℚ) := by
      unfold meanVals flatten_counter
      simp
    rw [hmean, bestItem_val 3 vs hs]
    norm_num

/-- Witness for C1 amended at the identity shuffles. -/
theorem C1_amended_witness :
    ([0, 1, 2, 3, 4, 5] : List Nat).Perm (List.range 6) ∧
    score_colors (generate_map 6 [0, 1, 2, 3, 4, 5])
        (bouquetColors (one_score_bouquet (generate_map 6 [0, 1, 2, 3, 4, 5])
          (generate_map 4 [0, 1, 2, 3]) (generate_map 3 [0, 1, 2]))) = 1 / 3 :=
  ⟨by decide,
    (C1_amended [0, 1, 2, 3, 4, 5] [0, 1, 2, 3] [0, 1, 2]
      (by decide) (by decide) (by decide)).2.2.2.1⟩

/-- C3: inventory conservation and non-negativity. Training rounds: the count
table after the recipient loop equals the round-start table minus exactly the
items allocated across all bouquets, and no cell goes negative. Final round:
the same holds for the counts dict threaded through the exploitation loop. -/
theorem C3_inventory_invariant :
    (∀ (rem : ℤ) (tot : Nat) (ctrls : Nat → Controls) (rids : List Nat) (info : FlowerInfo)
        (r : Rand) (res : List (Nat × Bouquet × Option ExpType)) (info2 : FlowerInfo)
        (r2 : Rand),
      trainLoop rem tot ctrls rids info r = some (res, info2, r2) →
      (∀ c t s, 0 ≤ info c t s) →
      ∀ (c : Fin 6) (t : Fin 4) (s : Fin 3),
        info2 c t s + (allocatedT res ⟨c, t, s⟩ : ℤ) = info c t s ∧ 0 ≤ info2 c t s) ∧
    (∀ (sid : Nat) (exps : Experiments) (rids : List Nat) (inv : List (Flower × ℤ))
        (r : Rand),
      LoggedNodup exps → NodupKeys inv → (∀ f, 0 ≤ dval inv f) →
      ∀ f, dval (finalLoop sid exps rids inv r).2.1 f +
          (allocatedF (finalLoop sid exps rids inv r).1 f : ℤ) = dval inv f ∧
        0 ≤ dval (finalLoop sid exps rids inv r).2.1 f) := by
  constructor
  · intro rem tot ctrls rids info r res info2 r2 heq hpos c t s
    have h := trainLoop_conserve rem tot ctrls rids info r res info2 r2 heq hpos c t s
    exact ⟨by omega, h.2⟩
  · intro sid exps rids inv r hlog hnd hpos f
    have h := finalLoop_conserve sid exps hlog rids inv r hnd hpos f
    exact ⟨by omega, h.2⟩

/-- Witness for C3: an empty training loop over a zero table, and a final
round serving recipient 2 from an empty inventory. -/
theorem C3_inventory_invariant_witness :
    (trainLoop 2 3 (fun _ => ctrl0) [] (fun _ _ _ => 0) [] =
        some ([], fun _ _ _ => 0, []) ∧
      LoggedNodup (fun _ => []) ∧ NodupKeys ([] : List (Flower × ℤ))) ∧
    (∀ (c : Fin 6) (t : Fin 4) (s : Fin 3),
      (0 : ℤ) + (allocatedT [] ⟨c, t, s⟩ : ℤ) = 0 ∧ (0 : ℤ) ≤ 0) ∧
    (∀ f, dval (finalLoop 0 (fun _ => []) [2] [] []).2.1 f +
        (allocatedF (finalLoop 0 (fun _ => []) [2] [] []).1 f : ℤ) = dval [] f ∧
      0 ≤ dval (finalLoop 0 (fun _ => []) [2] [] []).2.1 f) := by
  refine ⟨⟨rfl, ?_, List.Pairwise.nil⟩, ?_, ?_⟩
  · intro i e he
    simp at he
  · intro c t s
    have h := (C3_inventory_invariant.1 2 3 (fun _ => ctrl0) [] (fun _ _ _ => 0) []
      [] (fun _ _ _ => 0) [] rfl (fun _ _ _ => le_refl 0)) c t s
    exact h
  · intro f
    exact (C3_inventory_invariant.2 0 (fun _ => []) [2] [] []
      (fun i e he => by simp at he) List.Pairwise.nil (fun _ => le_refl 0)) f

/-- C8: tabulating a counts dict with distinct categories and strictly
positive counts and listing it back reproduces exactly the original mapping
(zero-count cells are omitted, so nothing spurious appears). -/
theorem C8_roundtrip (d : List (Flower × ℤ)) (hnd : NodupKeys d)
    (hpos : ∀ p ∈ d, 0 < p.2) :
    ∀ f, lookupD (_list_flowers (_tabularize_flowers d)) f = lookupD d f := by
  intro f
  rcases hf : f with ⟨c, t, s⟩
  rw [lookupD_list_flowers, tabularize_cell d hnd c t s]
  cases hl : lookupD d ⟨c, t, s⟩ with
  | none =>
      simp only [Option.getD_none]
      rw [if_neg (by omega)]
  | some v =>
      have hv : 0 < v := hpos (⟨c, t, s⟩, v) (lookupD_mem d _ v hl)
      simp only [Option.getD_some]
      rw [if_pos hv]

/-- Witness for C8 on a two-category inventory. -/
theorem C8_roundtrip_witness :
    NodupKeys [(f000, (2 : ℤ)), (⟨1, 2, 1⟩, 5)] ∧
    lookupD (_list_flowers (_tabularize_flowers [(f000, (2 : ℤ)), (⟨1, 2, 1⟩, 5)])) f000 =
      lookupD [(f000, (2 : ℤ)), (⟨1, 2, 1⟩, 5)] f000 :=
  ⟨by unfold NodupKeys; decide,
    C8_roundtrip [(f000, (2 : ℤ)), (⟨1, 2, 1⟩, 5)] (by unfold NodupKeys; decide)
      (by decide) f000⟩

/-- C5 counterexample: a feedback row present at the recipient's index but
with no score at position 1 makes `update_results` raise (return `none`)
instead of skipping that recipient. -/
theorem C5_counterexample :
    update_results 1 [0] [(1, 0, [], none)] [[[]]] (fun _ => []) = none := rfl

/-- C5 amended: recipients whose feedback entry is missing entirely (index at
or beyond `len(results)`) are silently skipped — the loop ranges over
`range(len(results))` — and, provided every visited row is well-formed, the
round completes; a present but shape-mismatched entry, by contrast, raises
(see the counterexample). -/
theorem C5_amended (sid : Nat) (rids : List Nat) (lastb : LastBouquet)
    (feedback : List (List (List ℚ))) (results : List (List ℚ)) (exps : Experiments)
    (entf : Nat → Nat × Nat × Bouquet × Option ExpType) (scf : Nat → ℚ) (idxf : Nat → Nat)
    (hlast : feedback.getLast? = some results)
    (hidx : ∀ j < results.length, j ≠ sid →
      rids.findIdx? (fun x => decide (x = j)) = some (idxf j))
    (hent : ∀ j < results.length, j ≠ sid → lastb.get? (idxf j) = some (entf j))
    (hsc : ∀ j < results.length, j ≠ sid →
      (results.get? j).bind (fun row => row.get? 1) = some (scf j)) :
    update_results sid rids lastb feedback exps =
      some (updFun sid entf scf (List.range results.length) exps) ∧
    ∀ i, results.length ≤ i →
      updFun sid entf scf (List.range results.length) exps i = exps i := by
  constructor
  · unfold update_results
    rw [hlast]
    exact update_go_eq sid rids lastb results entf scf idxf (List.range results.length)
      exps (fun j hj => hidx j (List.mem_range.mp hj))
      (fun j hj => hent j (List.mem_range.mp hj))
      (fun j hj => hsc j (List.mem_range.mp hj))
  · intro i hi
    exact updFun_notmem sid entf scf (List.range results.length) exps i
      (fun hc => by rw [List.mem_range] at hc; omega)

/-- Witness for C5 amended: one well-formed row, untouched log beyond it. -/
theorem C5_amended_witness :
    ([[[5, 7]]] : List (List (List ℚ))).getLast? = some [[5, 7]] ∧
    update_results 2 [0] [(2, 0, [(f000, 1)], some ExpType.color)] [[[5, 7]]]
        (fun _ => []) =
      some (updFun 2 (fun _ => (2, 0, [(f000, 1)], some ExpType.color)) (fun _ => 7)
        (List.range 1) (fun _ => [])) :=
  ⟨rfl,
    (C5_amended 2 [0] [(2, 0, [(f000, 1)], some ExpType.color)] [[[5, 7]]] [[5, 7]]
      (fun _ => []) (fun _ => (2, 0, [(f000, 1)], some ExpType.color)) (fun _ => 7)
      (fun _ => 0) rfl (by decide) (by decide) (by decide)).1⟩

/-- C9: when the previous round's bouquet for a recipient carried no
experiment tag (`exp_type` None), `update_results` still completes and
records the (bouquet, score) observation for that recipient under the
untagged bucket of its log. -/
theorem C9_untagged_recorded (sid : Nat) (rids : List Nat) (lastb : LastBouquet)
    (feedback : List (List (List ℚ))) (results : List (List ℚ)) (exps : Experiments)
    (entf : Nat → Nat × Nat × Bouquet × Option ExpType) (scf : Nat → ℚ) (idxf : Nat → Nat)
    (i : Nat) (hlast : feedback.getLast? = some results)
    (hidx : ∀ j < results.length, j ≠ sid →
      rids.findIdx? (fun x => decide (x = j)) = some (idxf j))
    (hent : ∀ j < results.length, j ≠ sid → lastb.get? (idxf j) = some (entf j))
    (hsc : ∀ j < results.length, j ≠ sid →
      (results.get? j).bind (fun row => row.get? 1) = some (scf j))
    (hi : i < results.length) (hisid : i ≠ sid) (htag : (entf i).2.2.2 = none) :
    update_results sid rids lastb feedback exps =
      some (updFun sid entf scf (List.range results.length) exps) ∧
    updFun sid entf scf (List.range results.length) exps i =
      appendObs (exps i) none ((entf i).2.2.1, scf i) := by
  constructor
  · unfold update_results
    rw [hlast]
    exact update_go_eq sid rids lastb results entf scf idxf (List.range results.length)
      exps (fun j hj => hidx j (List.mem_range.mp hj))
      (fun j hj => hent j (List.mem_range.mp hj))
      (fun j hj => hsc j (List.mem_range.mp hj))
  · rw [← htag]
    exact updFun_mem sid entf scf (List.range results.length) exps i
      (List.nodup_range results.length) (List.mem_range.mpr hi) hisid

/-- Witness for C9: recipient 0's previous bouquet was a random fallback
(tag None); the observation lands in the untagged bucket. -/
theorem C9_untagged_recorded_witness :
    (0 : Nat) < 1 ∧
    update_results 1 [0] [(1, 0, [(f000, 1)], none)] [[[5, 7]]] (fun _ => []) =
      some (updFun 1 (fun _ => (1, 0, [(f000, 1)], none)) (fun _ => 7)
        (List.range 1) (fun _ => [])) ∧
    updFun 1 (fun _ => (1, 0, [(f000, 1)], none)) (fun _ => 7) (List.range 1)
        (fun _ => []) 0 =
      appendObs [] none ([(f000, 1)], 7) := by
  have h := C9_untagged_recorded 1 [0] [(1, 0, [(f000, 1)], none)] [[[5, 7]]] [[5, 7]]
    (fun _ => []) (fun _ => (1, 0, [(f000, 1)], none)) (fun _ => 7) (fun _ => 0) 0
    rfl (by decide) (by decide) (by decide) (by decide) (by decide) rfl
  exact ⟨by decide, h.1, h.2⟩

/-- C10: games with at most 13 suitors index the shuffled control-option
lists (lengths 12, 18 and 24) in bounds, so `_assign_control_groups`
completes; with 14 suitors and suitor id 0, recipient 12 indexes position 12
of the 12-element color-control list and construction fails with an
IndexError (`none`). -/
theorem C10_control_bounds (n sid : Nat) (fcOpts : List (Fin 4 × Fin 3))
    (ftOpts : List (Fin 6 × Fin 3)) (fsOpts : List (Fin 6 × Fin 4))
    (hn : n ≤ 13) (hsid : sid < n) (hfc : fcOpts.length = 12) (hft : ftOpts.length = 18)
    (hfs : fsOpts.length = 24) :
    (_assign_control_groups (recipientIds n sid) fcOpts ftOpts fsOpts).isSome = true ∧
    _assign_control_groups (recipientIds 14 0) fc_control_options ft_control_options
      fs_control_options = none := by
  constructor
  · unfold _assign_control_groups
    apply assignGo_isSome
    intro rid hrid
    rw [recipientIds_length n sid hsid]
    rcases (mem_recipientIds n sid rid).mp hrid with ⟨hlt, hne⟩
    by_cases hn1 : n = 1
    · omega
    · have hpos : 0 < n - 1 := by omega
      have hmod : rid % (n - 1) < n - 1 := Nat.mod_lt _ hpos
      omega
  · rfl

/-- Witness for C10 at a full 13-suitor game with the unshuffled option
lists. -/
theorem C10_control_bounds_witness :
    (13 : Nat) ≤ 13 ∧ (0 : Nat) < 13 ∧
    (_assign_control_groups (recipientIds 13 0) fc_control_options ft_control_options
      fs_control_options).isSome = true :=
  ⟨by decide, by decide,
    (C10_control_bounds 13 0 fc_control_options ft_control_options fs_control_options
      (by decide) (by decide) (by decide) (by decide) (by decide)).1⟩

end Claims

end G4
